import Mathlib

/-!
Verification of the release-assembly reconciliation core of
`doozer/doozerlib/cli/release_gen_assembly.py` (class `GenAssemblyCli`).

The embedding models the reconciliation pipeline as pure functions over an
explicit state, with the external collaborators (the payload introspection
client, the brew build inspector, the brew "latest build before event"
queries and the el-version parser from `artcommonlib`) supplied as oracle
parameters.  Fatal `_exit_with_error` paths are modelled with `Except`.
Brew completion timestamps (Python floats of epoch seconds) are modelled as
integers (any fixed sub-second resolution works the same way); the
operations used on them (`max`, adding the fixed 300-second margin,
ordering) behave identically in both representations.
-/

/-- Association-list lookup keyed by decidable equality (models Python dict
membership / indexing). -/
def alookup {α β : Type} [DecidableEq α] (k : α) : List (α × β) → Option β
  | [] => none
  | (k', v) :: rest => if k' = k then some v else alookup k rest

/-- Association-list insert-or-replace (models Python `d[k] = v`: replaces the
value of an existing key in place, appends a new key at the end). -/
def upsert {α β : Type} [DecidableEq α] (k : α) (v : β) : List (α × β) → List (α × β)
  | [] => [(k, v)]
  | (k', v') :: rest => if k' = k then (k, v) :: rest else (k', v') :: upsert k v rest

/-- Python `set.add`. -/
def insertSet (x : String) (s : List String) : List String :=
  if x ∈ s then s else s ++ [x]

/-- The resolved brew build record behind a payload image, as exposed by
`BrewBuildImageInspector` together with its image metadata:
`get_package_name()`, `get_nvr()`, `completion_ts` of the brew build dict,
and `image_meta.get_payload_tag_info()` (payload tag name, explicit flag),
plus the image meta's `distgit_key`. -/
structure ImageBuild where
  packageName : String
  nvr : String
  completionTs : ℤ
  payloadName : String
  explicitName : Bool
  distgitKey : String
deriving DecidableEq

/-- One imagestream tag of a fetched release payload
(`release_info.references.spec.tags`): tag name and backing pullspec. -/
structure RTag where
  name : String
  pullspec : String
deriving DecidableEq

/-- One release payload to process: its brew CPU arch, the machine-os
version reported by the payload, and its imagestream tags. -/
structure Release where
  arch : String
  rhcosVersion : String
  tags : List RTag
deriving DecidableEq

/-- The mutable state of `GenAssemblyCli` touched by `_process_release`:
`component_image_builds`, `basis_event_ts`, `rhcos_by_tag`
(keyed by (tag name, arch)) and `rhcos_version`. -/
structure ProcState where
  componentImageBuilds : List (String × ImageBuild)
  basisEventTs : ℤ
  rhcosByTag : List ((String × String) × String)
  rhcosVersion : String
deriving DecidableEq

def initProcState : ProcState := ⟨[], 0, [], ""⟩

/-- The body of the tag loop of `GenAssemblyCli._process_release` for one
imagestream tag.  `rn` is the set of RHCOS container names, `resolve`
models `BrewBuildImageInspector` on a pullspec, `arch` is the release's
brew CPU arch. -/
def processTag (rn : List String) (resolve : String → ImageBuild) (arch : String)
    (st : ProcState) (t : RTag) : Except String ProcState :=
  if t.name ∈ rn then
    -- rhcos tag: recorded in rhcos_by_tag, then `continue` (no basis_event_ts update)
    .ok { st with rhcosByTag := upsert (t.name, arch) t.pullspec st.rhcosByTag }
  else
    let b := resolve t.pullspec
    match alookup b.packageName st.componentImageBuilds with
    | some existing =>
      if b.nvr ≠ existing.nvr then
        if b.explicitName then
          if b.payloadName ≠ t.name then
            -- conflicting tag ignored (`continue`): map and basis_event_ts untouched
            .ok st
          else
            -- explicit payload name matches: the new build replaces the recorded one
            .ok { st with
                  componentImageBuilds := upsert b.packageName b st.componentImageBuilds,
                  basisEventTs := max st.basisEventTs (b.completionTs + 60 * 5) }
        else
          .error "Found disparate nvrs between releases"
      else
        -- identical nvr: build kept, completion timestamp still contributes
        .ok { st with basisEventTs := max st.basisEventTs (b.completionTs + 60 * 5) }
    | none =>
      .ok { st with
            componentImageBuilds := upsert b.packageName b st.componentImageBuilds,
            basisEventTs := max st.basisEventTs (b.completionTs + 60 * 5) }

/-- The tag loop of `_process_release` over a payload's tags. -/
def processTags (rn : List String) (resolve : String → ImageBuild) (arch : String) :
    ProcState → List RTag → Except String ProcState
  | st, [] => .ok st
  | st, t :: ts =>
    match processTag rn resolve arch st t with
    | .ok st' => processTags rn resolve arch st' ts
    | .error e => .error e

/-- `GenAssemblyCli._process_release` for one fetched payload: the
imagestream-tag and machine-os-version presence checks, the
`rhcos_version` assignment, then the tag loop. -/
def processRelease (rn : List String) (resolve : String → ImageBuild)
    (st : ProcState) (r : Release) : Except String ProcState :=
  if r.tags = [] then
    .error "Could not find any imagestream tags in release"
  else if r.rhcosVersion = "" then
    .error "Could not find machine-os version in release"
  else
    processTags rn resolve r.arch { st with rhcosVersion := r.rhcosVersion } r.tags

/-- The payload-processing phase of `_determine_basis_brew_event`: the
releases processed one after the other, in the order their concurrent
fetches complete. -/
def processReleases (rn : List String) (resolve : String → ImageBuild) :
    ProcState → List Release → Except String ProcState
  | st, [] => .ok st
  | st, r :: rs =>
    match processRelease rn resolve st r with
    | .ok st' => processReleases rn resolve st' rs
    | .error e => .error e

/-- Modelled from the spec: the koji client's `getLastEvent(before=ts)`
(the build-system client is an external collaborator, not part of the
sources): it resolves an instant to "the build-system event id that is the
most recent event at or before this instant", over an event log of
(event id, event timestamp) pairs. -/
def laterEvent (acc : Option (Nat × ℤ)) (e : Nat × ℤ) : Option (Nat × ℤ) :=
  match acc with
  | none => some e
  | some a => if a.2 ≤ e.2 then some e else some a

def getLastEvent (events : List (Nat × ℤ)) (t : ℤ) : Option (Nat × ℤ) :=
  (events.filter (fun e => decide (e.2 ≤ t))).foldl laterEvent none

/-- Log levels of the run logger (only the levels the reconcilers emit). -/
inductive LogLevel
  | info
  | warn
  | err
deriving DecidableEq

/-- The slice of an image's group metadata consumed by
`_collect_outliers`: `distgit_key`, `get_component_name()`, `base_only`,
`for_release` and `is_payload`. -/
structure ImageMeta where
  distgitKey : String
  packageName : String
  baseOnly : Bool
  forRelease : Bool
  isPayload : Bool
deriving DecidableEq

/-- The state touched by `_collect_outliers`: `component_image_builds`,
`force_is`, and the log entries emitted. -/
structure OutState where
  componentImageBuilds : List (String × ImageBuild)
  forceIs : List String
  log : List (LogLevel × String)
deriving DecidableEq

/-- The body of the image loop of `GenAssemblyCli._collect_outliers` for
one image metadata entry.  `basisQuery` models
`image_meta.get_latest_brew_build(complete_before_event=basis_event)`
followed by `BrewBuildImageInspector` resolution, keyed by the component's
package name. -/
def collectOutlier (custom : Bool) (basisQuery : String → Option ImageBuild)
    (st : OutState) (m : ImageMeta) : Except String OutState :=
  if m.baseOnly || !m.forRelease then
    .ok st
  else
    match basisQuery m.packageName with
    | none =>
      .error "No image was found for assembly at estimated brew event"
    | some basisBuild =>
      if !m.isPayload then
        .ok { st with
              componentImageBuilds :=
                upsert m.packageName basisBuild st.componentImageBuilds,
              log := st.log ++ [(.info, "non-payload build will be swept by estimated assembly basis event")] }
      else
        match alookup m.packageName st.componentImageBuilds with
        | none =>
          .ok { st with
                componentImageBuilds :=
                  upsert m.packageName basisBuild st.componentImageBuilds,
                log := st.log ++
                  [((if custom then .warn else .err), "Unable to find component in releases")] }
        | some ref =>
          if basisBuild.nvr ≠ ref.nvr then
            .ok { st with
                  forceIs := insertSet m.packageName st.forceIs,
                  log := st.log ++ [(.info, "image will be pinned")] }
          else
            .ok st

/-- `GenAssemblyCli._collect_outliers` over the group's image metadata. -/
def collectOutliers (custom : Bool) (basisQuery : String → Option ImageBuild) :
    OutState → List ImageMeta → Except String OutState
  | st, [] => .ok st
  | st, m :: ms =>
    match collectOutlier custom basisQuery st m with
    | .ok st' => collectOutliers custom basisQuery st' ms
    | .error e => .error e

/-- A brew RPM build embedded in one of the accepted image builds, as
returned by `brew.get_build_objects`: `package_name`, `nvr` and `release`
string. -/
structure RpmBuild where
  packageName : String
  nvr : String
  release : String
deriving DecidableEq

/-- The state touched by `_select_rpms`: `component_rpm_builds`
(package name -> el major version -> observed rpm build) and `force_is`. -/
structure RpmState where
  componentRpmBuilds : List (String × List (Nat × RpmBuild))
  forceIs : List String
deriving DecidableEq

/-- The body of the rpm loop of `GenAssemblyCli._select_rpms` for one
embedded rpm build.  `roster` models `package_rpm_meta` (package name ->
distgit key), `rpmQuery` models
`rpm_meta.get_latest_brew_build(el_target, complete_before_event)`
returning the nvr of the latest build, and `isolateEl` models
`isolate_el_version_in_release` from `artcommonlib`. -/
def selectRpmStep (roster : List (String × String)) (rpmQuery : String → Nat → Option String)
    (isolateEl : String → Option Nat) (st : RpmState) (b : RpmBuild) : Except String RpmState :=
  if (alookup b.packageName roster).isNone then
    -- not an ART package: ignored
    .ok st
  else
    match isolateEl b.release with
    | none => .error "Unable to isolate el version"
    | some el =>
      -- bootstrap an empty dict for a package seen for the first time
      let st1 : RpmState :=
        if (alookup b.packageName st.componentRpmBuilds).isNone then
          { st with componentRpmBuilds := upsert b.packageName [] st.componentRpmBuilds }
        else st
      let inner : List (Nat × RpmBuild) :=
        (alookup b.packageName st1.componentRpmBuilds).getD []
      if (alookup el inner).isSome then
        -- already captured this (package, el) pair
        .ok st1
      else
        match rpmQuery b.packageName el with
        | none => .error "No RPM was found for assembly at estimated brew event"
        | some basisNvr =>
          if (alookup el inner).isSome then
            -- second capture check of the source, mirrored verbatim
            .ok st1
          else
            let newBuilds := upsert b.packageName (upsert el b inner) st1.componentRpmBuilds
            let st2 : RpmState := { st1 with componentRpmBuilds := newBuilds }
            if basisNvr ≠ b.nvr then
              .ok { st2 with forceIs := insertSet b.packageName st2.forceIs }
            else
              .ok st2

/-- `GenAssemblyCli._select_rpms` over the rpm builds embedded in the
accepted image builds. -/
def selectRpms (roster : List (String × String)) (rpmQuery : String → Nat → Option String)
    (isolateEl : String → Option Nat) : RpmState → List RpmBuild → Except String RpmState
  | st, [] => .ok st
  | st, b :: bs =>
    match selectRpmStep roster rpmQuery isolateEl st b with
    | .ok st' => selectRpms roster rpmQuery isolateEl st' bs
    | .error e => .error e

/-- An entry of the image override list produced by
`_get_member_overrides` (the constant `why` string elided): the
component's distgit key and the pinned `is: nvr`. -/
structure ImageOverride where
  distgitKey : String
  nvr : String
deriving DecidableEq

/-- An entry of the rpm override list produced by `_get_member_overrides`:
the distgit key and the pinned `el<ver> -> nvr` map. -/
structure RpmOverride where
  distgitKey : String
  isMap : List (Nat × String)
deriving DecidableEq

/-- `GenAssemblyCli._get_member_overrides`: for each pinned package name,
an image override if it has a recorded image build, otherwise an rpm
override if it has recorded rpm builds, otherwise nothing. -/
def getMemberOverrides (imageBuilds : List (String × ImageBuild))
    (rpmBuilds : List (String × List (Nat × RpmBuild))) (roster : List (String × String)) :
    List String → List ImageOverride × List RpmOverride
  | [] => ([], [])
  | pkg :: rest =>
    let tail := getMemberOverrides imageBuilds rpmBuilds roster rest
    match alookup pkg imageBuilds with
    | some b => (⟨b.distgitKey, b.nvr⟩ :: tail.1, tail.2)
    | none =>
      match alookup pkg rpmBuilds with
      | some inner =>
        (tail.1,
         ⟨(alookup pkg roster).getD "", inner.map (fun p => (p.1, p.2.nvr))⟩ :: tail.2)
      | none => tail

/-- The reconciliation core of `GenAssemblyCli.run` after parameter
validation: process the fetched payloads, resolve the basis brew event,
collect image outliers, select rpms, and produce the override lists
(`_generate_assembly_definition` keeps `basis_event`, `rhcos_by_tag` and the
two member override lists from this state).  `rpmsOf` models the bulk brew
archive enumeration of rpms embedded in the accepted image builds. -/
def genAssemblyCore (rn : List String) (resolve : String → ImageBuild)
    (events : List (Nat × ℤ)) (custom : Bool)
    (basisQuery : Nat → String → Option ImageBuild) (metas : List ImageMeta)
    (roster : List (String × String)) (rpmQuery : Nat → String → Nat → Option String)
    (isolateEl : String → Option Nat)
    (rpmsOf : List (String × ImageBuild) → List RpmBuild) (releases : List Release) :
    Except String (Nat × List ((String × String) × String) × List ImageOverride × List RpmOverride) :=
  match processReleases rn resolve initProcState releases with
  | .error e => .error e
  | .ok st =>
    match getLastEvent events st.basisEventTs with
    | none => .error "could not resolve basis event timestamp to a brew event"
    | some ev =>
      match collectOutliers custom (basisQuery ev.1) ⟨st.componentImageBuilds, [], []⟩ metas with
      | .error e => .error e
      | .ok ost =>
        match selectRpms roster (rpmQuery ev.1) isolateEl ⟨[], ost.forceIs⟩
            (rpmsOf ost.componentImageBuilds) with
        | .error e => .error e
        | .ok rst =>
          let ov := getMemberOverrides ost.componentImageBuilds rst.componentRpmBuilds
            roster rst.forceIs
          .ok (ev.1, st.rhcosByTag, ov.1, ov.2)

/-- Decidable equality of run outcomes, for evaluating the model on
concrete inputs. -/
instance {ε α : Type} [DecidableEq ε] [DecidableEq α] : DecidableEq (Except ε α) := fun a b =>
  match a, b with
  | .ok x, .ok y =>
    if h : x = y then isTrue (by rw [h]) else isFalse (fun hc => by cases hc; exact h rfl)
  | .error x, .error y =>
    if h : x = y then isTrue (by rw [h]) else isFalse (fun hc => by cases hc; exact h rfl)
  | .ok _, .error _ => isFalse (fun hc => by cases hc)
  | .error _, .ok _ => isFalse (fun hc => by cases hc)

/-! ### Basic lemmas about the association-list operations -/

theorem alookup_upsert {α β : Type} [DecidableEq α] (k k' : α) (v : β) (l : List (α × β)) :
    alookup k (upsert k' v l) = if k' = k then some v else alookup k l := by
  induction l with
  | nil => simp [alookup, upsert]
  | cons hd tl ih =>
    obtain ⟨k₀, v₀⟩ := hd
    by_cases h₀ : k₀ = k'
    · subst h₀
      simp only [upsert, if_pos rfl, alookup]
      by_cases h₁ : k₀ = k <;> simp [h₁]
    · simp only [upsert, if_neg h₀, alookup]
      by_cases h₁ : k₀ = k
      · subst h₁
        have : ¬ k' = k₀ := fun he => h₀ he.symm
        simp [this]
      · simp [h₁, ih]

theorem mem_insertSet (x y : String) (s : List String) :
    y ∈ insertSet x s ↔ y ∈ s ∨ y = x := by
  unfold insertSet
  by_cases h : x ∈ s
  · simp only [if_pos h]
    constructor
    · exact fun hy => Or.inl hy
    · rintro (hy | rfl)
      · exact hy
      · exact h
  · simp only [if_neg h, List.mem_append, List.mem_singleton]

/-! ### Monotonicity of the basis event instant -/

theorem processTag_ts_mono {rn : List String} {resolve : String → ImageBuild} {arch : String}
    {st : ProcState} {t : RTag} {st' : ProcState}
    (h : processTag rn resolve arch st t = .ok st') :
    st.basisEventTs ≤ st'.basisEventTs := by
  unfold processTag at h
  simp only [] at h
  split at h
  · cases h; exact le_refl _
  · split at h
    · split at h
      · split at h
        · split at h
          · cases h; exact le_refl _
          · cases h; exact le_max_left _ _
        · cases h
      · cases h; exact le_max_left _ _
    · cases h; exact le_max_left _ _

theorem processTags_ts_mono {rn : List String} {resolve : String → ImageBuild} {arch : String} :
    ∀ {ts : List RTag} {st st' : ProcState},
      processTags rn resolve arch st ts = .ok st' → st.basisEventTs ≤ st'.basisEventTs := by
  intro ts
  induction ts with
  | nil => intro st st' h; cases h; exact le_refl _
  | cons t rest ih =>
    intro st st' h
    unfold processTags at h
    split at h
    · exact le_trans (processTag_ts_mono (by assumption)) (ih h)
    · cases h

theorem processRelease_ts_mono {rn : List String} {resolve : String → ImageBuild}
    {st : ProcState} {r : Release} {st' : ProcState}
    (h : processRelease rn resolve st r = .ok st') :
    st.basisEventTs ≤ st'.basisEventTs := by
  unfold processRelease at h
  split at h
  · cases h
  · split at h
    · cases h
    · simpa using processTags_ts_mono h

theorem processReleases_ts_mono {rn : List String} {resolve : String → ImageBuild} :
    ∀ {rs : List Release} {st st' : ProcState},
      processReleases rn resolve st rs = .ok st' → st.basisEventTs ≤ st'.basisEventTs := by
  intro rs
  induction rs with
  | nil => intro st st' h; cases h; exact le_refl _
  | cons r rest ih =>
    intro st st' h
    unfold processReleases at h
    split at h
    · exact le_trans (processRelease_ts_mono (by assumption)) (ih h)
    · cases h

/-! ### The basis event instant bounds every recorded build's completion -/

theorem processTag_ts_bound {rn : List String} {resolve : String → ImageBuild} {arch : String}
    {st : ProcState} {t : RTag} {st' : ProcState}
    (hinv : ∀ pkg b, alookup pkg st.componentImageBuilds = some b →
      b.completionTs + 60 * 5 ≤ st.basisEventTs)
    (h : processTag rn resolve arch st t = .ok st') :
    ∀ pkg b, alookup pkg st'.componentImageBuilds = some b →
      b.completionTs + 60 * 5 ≤ st'.basisEventTs := by
  unfold processTag at h
  simp only [] at h
  split at h
  · cases h; exact hinv
  · split at h
    · split at h
      · split at h
        · split at h
          · cases h; exact hinv
          · cases h
            intro pkg b hl
            simp only at hl ⊢
            rw [alookup_upsert] at hl
            by_cases hp : (resolve t.pullspec).packageName = pkg
            · rw [if_pos hp] at hl
              cases hl
              exact le_max_right _ _
            · rw [if_neg hp] at hl
              exact le_trans (hinv pkg b hl) (le_max_left _ _)
        · cases h
      · cases h
        intro pkg b hl
        simp only at hl ⊢
        exact le_trans (hinv pkg b hl) (le_max_left _ _)
    · cases h
      intro pkg b hl
      simp only at hl ⊢
      rw [alookup_upsert] at hl
      by_cases hp : (resolve t.pullspec).packageName = pkg
      · rw [if_pos hp] at hl
        cases hl
        exact le_max_right _ _
      · rw [if_neg hp] at hl
        exact le_trans (hinv pkg b hl) (le_max_left _ _)

theorem processTags_ts_bound {rn : List String} {resolve : String → ImageBuild} {arch : String} :
    ∀ {ts : List RTag} {st st' : ProcState},
      (∀ pkg b, alookup pkg st.componentImageBuilds = some b →
        b.completionTs + 60 * 5 ≤ st.basisEventTs) →
      processTags rn resolve arch st ts = .ok st' →
      ∀ pkg b, alookup pkg st'.componentImageBuilds = some b →
        b.completionTs + 60 * 5 ≤ st'.basisEventTs := by
  intro ts
  induction ts with
  | nil => intro st st' hinv h; cases h; exact hinv
  | cons t rest ih =>
    intro st st' hinv h
    unfold processTags at h
    split at h
    · exact ih (processTag_ts_bound hinv (by assumption)) h
    · cases h

theorem processRelease_ts_bound {rn : List String} {resolve : String → ImageBuild}
    {st : ProcState} {r : Release} {st' : ProcState}
    (hinv : ∀ pkg b, alookup pkg st.componentImageBuilds = some b →
      b.completionTs + 60 * 5 ≤ st.basisEventTs)
    (h : processRelease rn resolve st r = .ok st') :
    ∀ pkg b, alookup pkg st'.componentImageBuilds = some b →
      b.completionTs + 60 * 5 ≤ st'.basisEventTs := by
  unfold processRelease at h
  split at h
  · cases h
  · split at h
    · cases h
    · exact processTags_ts_bound (by simpa using hinv) h

theorem processReleases_ts_bound {rn : List String} {resolve : String → ImageBuild} :
    ∀ {rs : List Release} {st st' : ProcState},
      (∀ pkg b, alookup pkg st.componentImageBuilds = some b →
        b.completionTs + 60 * 5 ≤ st.basisEventTs) →
      processReleases rn resolve st rs = .ok st' →
      ∀ pkg b, alookup pkg st'.componentImageBuilds = some b →
        b.completionTs + 60 * 5 ≤ st'.basisEventTs := by
  intro rs
  induction rs with
  | nil => intro st st' hinv h; cases h; exact hinv
  | cons r rest ih =>
    intro st st' hinv h
    unfold processReleases at h
    split at h
    · exact ih (processRelease_ts_bound hinv (by assumption)) h
    · cases h

/-! ### Appending further payloads to a processing run -/

theorem processReleases_append {rn : List String} {resolve : String → ImageBuild} :
    ∀ (l₁ l₂ : List Release) (st : ProcState),
      processReleases rn resolve st (l₁ ++ l₂) =
        match processReleases rn resolve st l₁ with
        | .ok st' => processReleases rn resolve st' l₂
        | .error e => .error e := by
  intro l₁
  induction l₁ with
  | nil => intro l₂ st; rfl
  | cons r rest ih =>
    intro l₂ st
    have hstep : processReleases rn resolve st ((r :: rest) ++ l₂) =
        match processRelease rn resolve st r with
        | .ok s => processReleases rn resolve s (rest ++ l₂)
        | .error e => .error e := rfl
    have hstep2 : processReleases rn resolve st (r :: rest) =
        match processRelease rn resolve st r with
        | .ok s => processReleases rn resolve s rest
        | .error e => .error e := rfl
    rw [hstep, hstep2]
    cases hr : processRelease rn resolve st r with
    | ok st₁ => exact ih l₂ st₁
    | error e => rfl

/-! ### Specification of the modelled brew event lookup -/

theorem laterEvent_none (e : Nat × ℤ) : laterEvent none e = some e := rfl

theorem laterEvent_some (a e : Nat × ℤ) :
    laterEvent (some a) e = if a.2 ≤ e.2 then some e else some a := rfl

theorem foldl_laterEvent_some :
    ∀ (l : List (Nat × ℤ)) (acc : Option (Nat × ℤ)) (e : Nat × ℤ),
      l.foldl laterEvent acc = some e → acc = some e ∨ e ∈ l := by
  intro l
  induction l with
  | nil => intro acc e h; exact Or.inl h
  | cons x xs ih =>
    intro acc e h
    rcases ih (laterEvent acc x) e h with h' | h'
    · cases acc with
      | none =>
        rw [laterEvent_none] at h'
        cases h'
        exact Or.inr (List.mem_cons_self _ _)
      | some a =>
        rw [laterEvent_some] at h'
        by_cases hle : a.2 ≤ x.2
        · rw [if_pos hle] at h'; cases h'; exact Or.inr (List.mem_cons_self _ _)
        · rw [if_neg hle] at h'; exact Or.inl h'
    · exact Or.inr (List.mem_cons_of_mem _ h')

theorem foldl_laterEvent_ge :
    ∀ (l : List (Nat × ℤ)) (acc : Option (Nat × ℤ)) (e : Nat × ℤ),
      l.foldl laterEvent acc = some e →
      (∀ a, acc = some a → a.2 ≤ e.2) ∧ ∀ x ∈ l, x.2 ≤ e.2 := by
  intro l
  induction l with
  | nil =>
    intro acc e h
    simp only [List.foldl_nil] at h
    subst h
    refine ⟨fun a ha => ?_, fun x hx => absurd hx (List.not_mem_nil _)⟩
    cases ha
    exact le_refl _
  | cons x xs ih =>
    intro acc e h
    obtain ⟨hacc, hxs⟩ := ih (laterEvent acc x) e h
    have hx : x.2 ≤ e.2 := by
      cases acc with
      | none => exact hacc x (laterEvent_none x)
      | some a =>
        by_cases hle : a.2 ≤ x.2
        · exact hacc x (by rw [laterEvent_some, if_pos hle])
        · exact le_trans (le_of_not_le hle) (hacc a (by rw [laterEvent_some, if_neg hle]))
    refine ⟨fun a ha => ?_, fun y hy => ?_⟩
    · subst ha
      by_cases hle : a.2 ≤ x.2
      · exact le_trans hle (hacc x (by rw [laterEvent_some, if_pos hle]))
      · exact hacc a (by rw [laterEvent_some, if_neg hle])
    · rcases List.mem_cons.mp hy with rfl | hy'
      · exact hx
      · exact hxs y hy'

theorem foldl_laterEvent_isSome :
    ∀ (l : List (Nat × ℤ)) (acc : Option (Nat × ℤ)),
      acc.isSome = true ∨ l ≠ [] → (l.foldl laterEvent acc).isSome = true := by
  intro l
  induction l with
  | nil =>
    intro acc h
    rcases h with h | h
    · exact h
    · exact absurd rfl h
  | cons x xs ih =>
    intro acc _
    apply ih
    left
    cases acc with
    | none => rfl
    | some a =>
      rw [laterEvent_some]
      by_cases hle : a.2 ≤ x.2 <;> simp [hle]

/-- C1: for every set of resolved component image builds processed from the
payloads (the builds retained in `component_image_builds`), the computed
basis event instant `basis_event_ts` is at least the build's completion
timestamp plus the fixed 5-minute (300 second) safety margin — hence at
least the maximum such timestamp — and it is monotonically non-decreasing
as additional payloads are processed; the basis event id is then resolved
as the most recent build-system event at or before that instant. -/
theorem C1_basis_event_estimate (rn : List String) (resolve : String → ImageBuild)
    (rs : List Release) (st' : ProcState)
    (h : processReleases rn resolve initProcState rs = .ok st') :
    (∀ pkg b, alookup pkg st'.componentImageBuilds = some b →
      b.completionTs + 60 * 5 ≤ st'.basisEventTs)
    ∧ (∀ more st'', processReleases rn resolve initProcState (rs ++ more) = .ok st'' →
      st'.basisEventTs ≤ st''.basisEventTs)
    ∧ (∀ events e, getLastEvent events st'.basisEventTs = some e →
      e ∈ events ∧ e.2 ≤ st'.basisEventTs ∧
        ∀ e' ∈ events, e'.2 ≤ st'.basisEventTs → e'.2 ≤ e.2) := by
  refine ⟨?_, ?_, ?_⟩
  · apply processReleases_ts_bound ?_ h
    intro pkg b hb
    simp [initProcState, alookup] at hb
  · intro more st'' h''
    rw [processReleases_append rs more initProcState, h] at h''
    exact processReleases_ts_mono h''
  · intro events e he
    unfold getLastEvent at he
    have hmem : e ∈ events.filter (fun x => decide (x.2 ≤ st'.basisEventTs)) := by
      rcases foldl_laterEvent_some _ none e he with hc | hc
      · cases hc
      · exact hc
    have hev : e ∈ events ∧ e.2 ≤ st'.basisEventTs := by
      have := List.mem_filter.mp hmem
      exact ⟨this.1, of_decide_eq_true this.2⟩
    refine ⟨hev.1, hev.2, fun e' he' hle' => ?_⟩
    exact (foldl_laterEvent_ge _ none e he).2 e'
      (List.mem_filter.mpr ⟨he', decide_eq_true hle'⟩)

/-- Witness for C1: a concrete single-payload run in which the recorded
build completed at instant 100, so the basis event instant is 400 = 100 +
300, and the modelled event lookup resolves it to the latest event at or
before 400. -/
theorem C1_basis_event_estimate_witness :
    (100 : ℤ) + 60 * 5 ≤ 400 ∧ ((7 : Nat), (390 : ℤ)) ∈ [((3 : Nat), (12 : ℤ)), (7, 390), (9, 401)] := by
  have hrun := C1_basis_event_estimate [] (fun _ => ⟨"p", "n", 100, "t", false, "d"⟩)
    [⟨"a", "v", [⟨"t", "x"⟩]⟩]
    ⟨[("p", ⟨"p", "n", 100, "t", false, "d"⟩)], 400, [], "v"⟩ (by decide)
  refine ⟨hrun.1 "p" ⟨"p", "n", 100, "t", false, "d"⟩ (by decide), ?_⟩
  exact (hrun.2.2 [(3, 12), (7, 390), (9, 401)] (7, 390) (by decide)).1

/-- C2: when a processed payload resolves a package to a different NVR than
the one already recorded: with no explicit payload tag name on the image
metadata the run aborts with a hard error; with an explicit name equal to
the conflicting tag's name the new build replaces the recorded one
(last explicit match wins); with an explicit name different from the
conflicting tag's name the conflicting tag is discarded and the recorded
build — and the whole state — is kept. -/
theorem C2_conflict_policy {rn : List String} {resolve : String → ImageBuild} {arch : String}
    {st : ProcState} {t : RTag} {existing : ImageBuild}
    (hnr : t.name ∉ rn)
    (hex : alookup (resolve t.pullspec).packageName st.componentImageBuilds = some existing)
    (hnvr : (resolve t.pullspec).nvr ≠ existing.nvr) :
    ((resolve t.pullspec).explicitName = false →
      ∃ e, processTag rn resolve arch st t = .error e)
    ∧ ((resolve t.pullspec).explicitName = true → (resolve t.pullspec).payloadName = t.name →
      ∃ st', processTag rn resolve arch st t = .ok st' ∧
        alookup (resolve t.pullspec).packageName st'.componentImageBuilds =
          some (resolve t.pullspec))
    ∧ ((resolve t.pullspec).explicitName = true → (resolve t.pullspec).payloadName ≠ t.name →
      processTag rn resolve arch st t = .ok st) := by
  refine ⟨?_, ?_, ?_⟩
  · intro hexp
    exact ⟨"Found disparate nvrs between releases", by simp [processTag, hnr, hex, hnvr, hexp]⟩
  · intro hexp hpn
    refine ⟨{ st with
        componentImageBuilds :=
          upsert (resolve t.pullspec).packageName (resolve t.pullspec) st.componentImageBuilds,
        basisEventTs := max st.basisEventTs ((resolve t.pullspec).completionTs + 60 * 5) },
      by simp [processTag, hnr, hex, hnvr, hexp, hpn], ?_⟩
    simp [alookup_upsert]
  · intro hexp hpn
    simp [processTag, hnr, hex, hnvr, hexp, hpn]

/-- Witness for C2: a concrete conflicting tag without an explicit payload
name aborts the run. -/
theorem C2_conflict_policy_witness :
    ∃ e, processTag [] (fun _ => ⟨"p", "n2", 50, "t", false, "d"⟩) "a"
      ⟨[("p", ⟨"p", "n1", 100, "t", false, "d"⟩)], 400, [], "v"⟩ ⟨"t", "x"⟩ = .error e :=
  (@C2_conflict_policy [] (fun _ => ⟨"p", "n2", 50, "t", false, "d"⟩) "a"
    ⟨[("p", ⟨"p", "n1", 100, "t", false, "d"⟩)], 400, [], "v"⟩ ⟨"t", "x"⟩
    ⟨"p", "n1", 100, "t", false, "d"⟩ (by decide) (by decide) (by decide)).1 rfl

/-- C9: a conflicting payload tag discarded by the explicit payload-name
tie-break contributes nothing to the basis event instant (the state,
including `basis_event_ts`, is untouched); whereas when an explicit match
replaces a previously recorded build whose completion timestamp has
already contributed, that contribution is never removed, so the basis
event instant still reflects a build that is no longer the selected one. -/
theorem C9_discarded_ts_excluded {rn : List String} {resolve : String → ImageBuild} {arch : String}
    {st : ProcState} {t : RTag} {existing : ImageBuild}
    (hnr : t.name ∉ rn)
    (hex : alookup (resolve t.pullspec).packageName st.componentImageBuilds = some existing)
    (hnvr : (resolve t.pullspec).nvr ≠ existing.nvr)
    (hexp : (resolve t.pullspec).explicitName = true) :
    ((resolve t.pullspec).payloadName ≠ t.name →
      ∃ st', processTag rn resolve arch st t = .ok st' ∧
        st'.basisEventTs = st.basisEventTs ∧
        st'.componentImageBuilds = st.componentImageBuilds)
    ∧ ((resolve t.pullspec).payloadName = t.name →
      existing.completionTs + 60 * 5 ≤ st.basisEventTs →
      ∃ st', processTag rn resolve arch st t = .ok st' ∧
        alookup (resolve t.pullspec).packageName st'.componentImageBuilds =
          some (resolve t.pullspec) ∧
        resolve t.pullspec ≠ existing ∧
        existing.completionTs + 60 * 5 ≤ st'.basisEventTs) := by
  refine ⟨?_, ?_⟩
  · intro hpn
    exact ⟨st, by simp [processTag, hnr, hex, hnvr, hexp, hpn], rfl, rfl⟩
  · intro hpn hc
    refine ⟨{ st with
        componentImageBuilds :=
          upsert (resolve t.pullspec).packageName (resolve t.pullspec) st.componentImageBuilds,
        basisEventTs := max st.basisEventTs ((resolve t.pullspec).completionTs + 60 * 5) },
      by simp [processTag, hnr, hex, hnvr, hexp, hpn], ?_, ?_, ?_⟩
    · simp [alookup_upsert]
    · exact fun he => hnvr (congrArg ImageBuild.nvr he)
    · exact le_trans hc (le_max_left _ _)

/-- Witness for C9: a concrete discarded tag (payload name `t`, tag named
`other`) leaves the basis event instant at 400; a concrete explicit
replacement keeps the superseded build's 100 + 300 contribution. -/
theorem C9_discarded_ts_excluded_witness :
    (∃ st', processTag [] (fun _ => ⟨"p", "n2", 999, "t", true, "d"⟩) "a"
        ⟨[("p", ⟨"p", "n1", 100, "t", true, "d"⟩)], 400, [], "v"⟩ ⟨"other", "x"⟩ = .ok st' ∧
      st'.basisEventTs = 400 ∧
      st'.componentImageBuilds = [("p", ⟨"p", "n1", 100, "t", true, "d"⟩)])
    ∧ ∃ st', processTag [] (fun _ => ⟨"p", "n2", 50, "t", true, "d"⟩) "a"
        ⟨[("p", ⟨"p", "n1", 100, "t", true, "d"⟩)], 400, [], "v"⟩ ⟨"t", "x"⟩ = .ok st' ∧
      alookup "p" st'.componentImageBuilds = some ⟨"p", "n2", 50, "t", true, "d"⟩ ∧
      (100 : ℤ) + 60 * 5 ≤ st'.basisEventTs := by
  constructor
  · obtain ⟨st', h1, h2, h3⟩ :=
      (@C9_discarded_ts_excluded [] (fun _ => ⟨"p", "n2", 999, "t", true, "d"⟩) "a"
        ⟨[("p", ⟨"p", "n1", 100, "t", true, "d"⟩)], 400, [], "v"⟩ ⟨"other", "x"⟩
        ⟨"p", "n1", 100, "t", true, "d"⟩ (by decide) (by decide) (by decide) (by decide)).1
        (by decide)
    exact ⟨st', h1, h2, h3⟩
  · obtain ⟨st', h1, h2, _, h4⟩ :=
      (@C9_discarded_ts_excluded [] (fun _ => ⟨"p", "n2", 50, "t", true, "d"⟩) "a"
        ⟨[("p", ⟨"p", "n1", 100, "t", true, "d"⟩)], 400, [], "v"⟩ ⟨"t", "x"⟩
        ⟨"p", "n1", 100, "t", true, "d"⟩ (by decide) (by decide) (by decide) (by decide)).2
        rfl (by decide)
    exact ⟨st', h1, h2, h4⟩

/-- C7: a payload-destined component absent from the builds resolved out of
the payloads is non-fatal in both custom (relaxed) and strict mode: the
basis-event query's build is accepted for it, no override is recorded
(`force_is` unchanged), and a warning-level log entry is emitted in custom
mode versus an error-level one in strict mode. -/
theorem C7_missing_payload_component_nonfatal {basisQuery : String → Option ImageBuild}
    {st : OutState} {m : ImageMeta} {bb : ImageBuild}
    (h1 : m.baseOnly = false) (h2 : m.forRelease = true) (h3 : m.isPayload = true)
    (hq : basisQuery m.packageName = some bb)
    (habs : alookup m.packageName st.componentImageBuilds = none) :
    ∀ custom : Bool, ∃ st', collectOutlier custom basisQuery st m = .ok st' ∧
      alookup m.packageName st'.componentImageBuilds = some bb ∧
      st'.forceIs = st.forceIs ∧
      st'.log = st.log ++
        [((if custom then LogLevel.warn else LogLevel.err),
          "Unable to find component in releases")] := by
  intro custom
  refine ⟨{ st with
      componentImageBuilds := upsert m.packageName bb st.componentImageBuilds,
      log := st.log ++
        [((if custom then LogLevel.warn else LogLevel.err),
          "Unable to find component in releases")] },
    by simp [collectOutlier, h1, h2, h3, hq, habs], ?_, rfl, rfl⟩
  simp [alookup_upsert]

/-- Witness for C7: a concrete payload-destined component missing from the
payload-resolved builds is accepted from the basis-event query in custom
mode, with a warning logged and no override. -/
theorem C7_missing_payload_component_nonfatal_witness :
    ∃ st', collectOutlier true (fun _ => some ⟨"p", "n0", 10, "t", false, "d"⟩)
      ⟨[], [], []⟩ ⟨"d", "p", false, true, true⟩ = .ok st' ∧
      alookup "p" st'.componentImageBuilds = some ⟨"p", "n0", 10, "t", false, "d"⟩ ∧
      st'.forceIs = [] ∧
      st'.log = [] ++ [((if true then LogLevel.warn else LogLevel.err),
        "Unable to find component in releases")] :=
  @C7_missing_payload_component_nonfatal (fun _ => some ⟨"p", "n0", 10, "t", false, "d"⟩)
    ⟨[], [], []⟩ ⟨"d", "p", false, true, true⟩ ⟨"p", "n0", 10, "t", false, "d"⟩
    rfl rfl rfl rfl rfl true

theorem upsert_upsert {α β : Type} [DecidableEq α] (k : α) (v w : β) (l : List (α × β)) :
    upsert k v (upsert k w l) = upsert k v l := by
  induction l with
  | nil => simp [upsert]
  | cons hd tl ih =>
    obtain ⟨k₀, v₀⟩ := hd
    by_cases h₀ : k₀ = k
    · simp [upsert, h₀]
    · simp [upsert, h₀, ih]

/-- A third-party rpm build (package not in the ART roster) is skipped
without touching the state or consulting the el parser. -/
theorem selectRpmStep_nonRoster {roster : List (String × String)}
    {rpmQuery : String → Nat → Option String} {isolateEl : String → Option Nat}
    {st : RpmState} {b : RpmBuild}
    (hr : alookup b.packageName roster = none) :
    selectRpmStep roster rpmQuery isolateEl st b = .ok st := by
  unfold selectRpmStep
  rw [hr]
  rfl

/-- An ART rpm build whose release string yields no el version is fatal. -/
theorem selectRpmStep_parseFail {roster : List (String × String)}
    {rpmQuery : String → Nat → Option String} {isolateEl : String → Option Nat}
    {st : RpmState} {b : RpmBuild} {dgk : String}
    (hr : alookup b.packageName roster = some dgk)
    (hel : isolateEl b.release = none) :
    selectRpmStep roster rpmQuery isolateEl st b = .error "Unable to isolate el version" := by
  unfold selectRpmStep
  rw [hr, hel]
  rfl

/-- A duplicate (package, el) pair is skipped silently: the state is
returned unchanged. -/
theorem selectRpmStep_dup {roster : List (String × String)}
    {rpmQuery : String → Nat → Option String} {isolateEl : String → Option Nat}
    {st : RpmState} {b : RpmBuild} {el : Nat} {b0 : RpmBuild} {dgk : String}
    (hr : alookup b.packageName roster = some dgk)
    (hel : isolateEl b.release = some el)
    (hdup : alookup el ((alookup b.packageName st.componentRpmBuilds).getD []) = some b0) :
    selectRpmStep roster rpmQuery isolateEl st b = .ok st := by
  have hb : ∃ inner0, alookup b.packageName st.componentRpmBuilds = some inner0 := by
    cases hb : alookup b.packageName st.componentRpmBuilds with
    | none => rw [hb] at hdup; simp [alookup] at hdup
    | some inner0 => exact ⟨inner0, rfl⟩
  obtain ⟨inner0, hb⟩ := hb
  rw [hb] at hdup
  simp only [Option.getD_some] at hdup
  unfold selectRpmStep
  rw [hr, hel]
  simp [hb, hdup]

/-- A first-time (package, el) pair whose basis-event query is empty is
fatal. -/
theorem selectRpmStep_queryFail {roster : List (String × String)}
    {rpmQuery : String → Nat → Option String} {isolateEl : String → Option Nat}
    {st : RpmState} {b : RpmBuild} {el : Nat} {dgk : String}
    (hr : alookup b.packageName roster = some dgk)
    (hel : isolateEl b.release = some el)
    (hnew : alookup el ((alookup b.packageName st.componentRpmBuilds).getD []) = none)
    (hq : rpmQuery b.packageName el = none) :
    selectRpmStep roster rpmQuery isolateEl st b =
      .error "No RPM was found for assembly at estimated brew event" := by
  unfold selectRpmStep
  rw [hr, hel]
  cases hb : alookup b.packageName st.componentRpmBuilds with
  | none =>
    rw [hb] at hnew
    simp only [Option.getD_none] at hnew
    simp [hb, alookup, alookup_upsert, hnew, hq]
  | some inner0 =>
    rw [hb] at hnew
    simp only [Option.getD_some] at hnew
    simp [hb, hnew, hq]

/-- A first-time (package, el) pair with a successful basis-event query is
retained; the package is pinned exactly when the query's nvr differs from
the observed build's nvr. -/
theorem selectRpmStep_retain {roster : List (String × String)}
    {rpmQuery : String → Nat → Option String} {isolateEl : String → Option Nat}
    {st : RpmState} {b : RpmBuild} {el : Nat} {basisNvr dgk : String}
    (hr : alookup b.packageName roster = some dgk)
    (hel : isolateEl b.release = some el)
    (hnew : alookup el ((alookup b.packageName st.componentRpmBuilds).getD []) = none)
    (hq : rpmQuery b.packageName el = some basisNvr) :
    selectRpmStep roster rpmQuery isolateEl st b = .ok
      ⟨upsert b.packageName
        (upsert el b ((alookup b.packageName st.componentRpmBuilds).getD []))
        st.componentRpmBuilds,
       if basisNvr ≠ b.nvr then insertSet b.packageName st.forceIs else st.forceIs⟩ := by
  unfold selectRpmStep
  rw [hr, hel]
  cases hb : alookup b.packageName st.componentRpmBuilds with
  | none =>
    rw [hb] at hnew
    simp only [Option.getD_none] at hnew
    by_cases hv : basisNvr = b.nvr
    · simp [hb, hnew, hq, hv, alookup, alookup_upsert, upsert_upsert]
    · simp [hb, hnew, hq, hv, alookup, alookup_upsert, upsert_upsert]
  | some inner0 =>
    rw [hb] at hnew
    simp only [Option.getD_some] at hnew
    by_cases hv : basisNvr = b.nvr
    · simp [hb, hnew, hq, hv]
    · simp [hb, hnew, hq, hv]

/-- Inversion for a successful rpm step: either the state is unchanged, or
a first-time (package, el) pair was retained. -/
theorem selectRpmStep_ok_cases {roster : List (String × String)}
    {rpmQuery : String → Nat → Option String} {isolateEl : String → Option Nat}
    {st : RpmState} {b : RpmBuild} {st' : RpmState}
    (h : selectRpmStep roster rpmQuery isolateEl st b = .ok st') :
    st' = st ∨
    ∃ el basisNvr dgk, alookup b.packageName roster = some dgk ∧
      isolateEl b.release = some el ∧
      alookup el ((alookup b.packageName st.componentRpmBuilds).getD []) = none ∧
      rpmQuery b.packageName el = some basisNvr ∧
      st' = ⟨upsert b.packageName
          (upsert el b ((alookup b.packageName st.componentRpmBuilds).getD []))
          st.componentRpmBuilds,
        if basisNvr ≠ b.nvr then insertSet b.packageName st.forceIs else st.forceIs⟩ := by
  cases hr : alookup b.packageName roster with
  | none =>
    rw [selectRpmStep_nonRoster hr] at h
    cases h
    exact Or.inl rfl
  | some dgk =>
    cases hel : isolateEl b.release with
    | none => rw [selectRpmStep_parseFail hr hel] at h; cases h
    | some el =>
      cases hdup : alookup el ((alookup b.packageName st.componentRpmBuilds).getD []) with
      | some b0 =>
        rw [selectRpmStep_dup hr hel hdup] at h
        cases h
        exact Or.inl rfl
      | none =>
        cases hq : rpmQuery b.packageName el with
        | none => rw [selectRpmStep_queryFail hr hel hdup hq] at h; cases h
        | some basisNvr =>
          rw [selectRpmStep_retain hr hel hdup hq] at h
          cases h
          exact Or.inr ⟨el, basisNvr, dgk, rfl, rfl, hdup, hq, rfl⟩

/-- A retained (package, el) entry survives any later rpm step. -/
theorem selectRpmStep_preserves_entry {roster : List (String × String)}
    {rpmQuery : String → Nat → Option String} {isolateEl : String → Option Nat}
    {st : RpmState} {b : RpmBuild} {st' : RpmState} {pkg : String} {el : Nat} {b0 : RpmBuild}
    (h : selectRpmStep roster rpmQuery isolateEl st b = .ok st')
    (hprev : alookup el ((alookup pkg st.componentRpmBuilds).getD []) = some b0) :
    alookup el ((alookup pkg st'.componentRpmBuilds).getD []) = some b0 := by
  rcases selectRpmStep_ok_cases h with rfl | ⟨el', basisNvr, dgk, _, _, hnew, _, rfl⟩
  · exact hprev
  · by_cases hpkg : b.packageName = pkg
    · subst hpkg
      have hne : el' ≠ el := by
        intro he
        rw [he, hprev] at hnew
        cases hnew
      rw [alookup_upsert, if_pos rfl]
      simp only [Option.getD_some]
      rw [alookup_upsert, if_neg hne]
      exact hprev
    · simp only [alookup_upsert, if_neg hpkg]
      exact hprev

/-- A (package, el) pair that is not retained stays unretained across a
step for a different (package, el). -/
theorem selectRpmStep_preserves_absent {roster : List (String × String)}
    {rpmQuery : String → Nat → Option String} {isolateEl : String → Option Nat}
    {st : RpmState} {b : RpmBuild} {st' : RpmState} {pkg : String} {el : Nat}
    (h : selectRpmStep roster rpmQuery isolateEl st b = .ok st')
    (habs : alookup el ((alookup pkg st.componentRpmBuilds).getD []) = none)
    (hnot : ¬(b.packageName = pkg ∧ isolateEl b.release = some el)) :
    alookup el ((alookup pkg st'.componentRpmBuilds).getD []) = none := by
  rcases selectRpmStep_ok_cases h with rfl | ⟨el', basisNvr, dgk, _, hel', _, _, rfl⟩
  · exact habs
  · by_cases hpkg : b.packageName = pkg
    · have hne : el' ≠ el := by
        intro he
        exact hnot ⟨hpkg, by rw [hel', he]⟩
      subst hpkg
      rw [alookup_upsert, if_pos rfl]
      simp only [Option.getD_some]
      rw [alookup_upsert, if_neg hne]
      exact habs
    · simp only [alookup_upsert, if_neg hpkg]
      exact habs

/-- Retained (package, el) entries survive the whole rpm loop: first one
observed wins. -/
theorem selectRpms_preserves_entry {roster : List (String × String)}
    {rpmQuery : String → Nat → Option String} {isolateEl : String → Option Nat} :
    ∀ {builds : List RpmBuild} {st st' : RpmState} {pkg : String} {el : Nat} {b0 : RpmBuild},
      selectRpms roster rpmQuery isolateEl st builds = .ok st' →
      alookup el ((alookup pkg st.componentRpmBuilds).getD []) = some b0 →
      alookup el ((alookup pkg st'.componentRpmBuilds).getD []) = some b0 := by
  intro builds
  induction builds with
  | nil => intro st st' pkg el b0 h hprev; cases h; exact hprev
  | cons x xs ih =>
    intro st st' pkg el b0 h hprev
    unfold selectRpms at h
    split at h
    · exact ih h (selectRpmStep_preserves_entry (by assumption) hprev)
    · cases h

/-- An eligible image component whose basis-event query is empty is
fatal. -/
theorem collectOutlier_queryFail {custom : Bool} {basisQuery : String → Option ImageBuild}
    {st : OutState} {m : ImageMeta}
    (h1 : m.baseOnly = false) (h2 : m.forRelease = true)
    (hq : basisQuery m.packageName = none) :
    collectOutlier custom basisQuery st m =
      .error "No image was found for assembly at estimated brew event" := by
  simp [collectOutlier, h1, h2, hq]

/-- The fatal image-query absence propagates through the whole image
loop. -/
theorem collectOutliers_error_of_queryFail {custom : Bool}
    {basisQuery : String → Option ImageBuild} :
    ∀ {metas : List ImageMeta} {st : OutState} {m : ImageMeta},
      m ∈ metas → m.baseOnly = false → m.forRelease = true →
      basisQuery m.packageName = none →
      ∃ e, collectOutliers custom basisQuery st metas = .error e := by
  intro metas
  induction metas with
  | nil => intro st m hm; exact absurd hm (List.not_mem_nil _)
  | cons x xs ih =>
    intro st m hm h1 h2 hq
    rcases List.mem_cons.mp hm with rfl | hm'
    · refine ⟨"No image was found for assembly at estimated brew event", ?_⟩
      unfold collectOutliers
      rw [collectOutlier_queryFail h1 h2 hq]
    · cases hstep : collectOutlier custom basisQuery st x with
      | ok st₁ =>
        obtain ⟨e, he⟩ := ih hm' h1 h2 hq
        refine ⟨e, ?_⟩
        unfold collectOutliers
        rw [hstep]
        exact he
      | error e =>
        refine ⟨e, ?_⟩
        unfold collectOutliers
        rw [hstep]

/-- The fatal el-parse failure propagates through the whole rpm loop. -/
theorem selectRpms_error_of_parseFail {roster : List (String × String)}
    {rpmQuery : String → Nat → Option String} {isolateEl : String → Option Nat} :
    ∀ {builds : List RpmBuild} {st : RpmState} {b : RpmBuild} {dgk : String},
      b ∈ builds → alookup b.packageName roster = some dgk →
      isolateEl b.release = none →
      ∃ e, selectRpms roster rpmQuery isolateEl st builds = .error e := by
  intro builds
  induction builds with
  | nil => intro st b dgk hb; exact absurd hb (List.not_mem_nil _)
  | cons x xs ih =>
    intro st b dgk hb hr hel
    rcases List.mem_cons.mp hb with rfl | hb'
    · refine ⟨"Unable to isolate el version", ?_⟩
      unfold selectRpms
      rw [selectRpmStep_parseFail hr hel]
    · cases hstep : selectRpmStep roster rpmQuery isolateEl st x with
      | ok st₁ =>
        obtain ⟨e, he⟩ := ih hb' hr hel
        refine ⟨e, ?_⟩
        unfold selectRpms
        rw [hstep]
        exact he
      | error e =>
        refine ⟨e, ?_⟩
        unfold selectRpms
        rw [hstep]

/-- The fatal rpm-query absence propagates through the whole rpm loop,
provided the failing (package, el) pair has not been retained yet. -/
theorem selectRpms_error_of_queryFail {roster : List (String × String)}
    {rpmQuery : String → Nat → Option String} {isolateEl : String → Option Nat} :
    ∀ {builds : List RpmBuild} {st : RpmState} {b : RpmBuild} {el : Nat} {dgk : String},
      b ∈ builds → alookup b.packageName roster = some dgk →
      isolateEl b.release = some el →
      alookup el ((alookup b.packageName st.componentRpmBuilds).getD []) = none →
      rpmQuery b.packageName el = none →
      ∃ e, selectRpms roster rpmQuery isolateEl st builds = .error e := by
  intro builds
  induction builds with
  | nil => intro st b el dgk hb; exact absurd hb (List.not_mem_nil _)
  | cons x xs ih =>
    intro st b el dgk hb hr hel habs hq
    rcases List.mem_cons.mp hb with rfl | hb'
    · refine ⟨"No RPM was found for assembly at estimated brew event", ?_⟩
      unfold selectRpms
      rw [selectRpmStep_queryFail hr hel habs hq]
    · by_cases hx : x.packageName = b.packageName ∧ isolateEl x.release = some el
      · refine ⟨"No RPM was found for assembly at estimated brew event", ?_⟩
        unfold selectRpms
        rw [selectRpmStep_queryFail (by rw [hx.1]; exact hr) hx.2
          (by rw [hx.1]; exact habs) (by rw [hx.1]; exact hq)]
      · cases hstep : selectRpmStep roster rpmQuery isolateEl st x with
        | ok st₁ =>
          obtain ⟨e, he⟩ := ih hb' hr hel
            (selectRpmStep_preserves_absent hstep habs hx) hq
          refine ⟨e, ?_⟩
          unfold selectRpms
          rw [hstep]
          exact he
        | error e =>
          refine ⟨e, ?_⟩
          unfold selectRpms
          rw [hstep]

/-- C3: a package is added to the pinned-override set `force_is` if and
only if the basis-event "latest build completed before the basis event"
query returns an NVR different from the NVR observed in the payloads (for
images, per package name; for rpms, per package name and el target); when
the NVRs match exactly, the package is consistent and no override is
recorded. -/
theorem C3_pin_iff_nvr_differs :
    (∀ (custom : Bool) (basisQuery : String → Option ImageBuild) (st : OutState)
        (m : ImageMeta) (bb ref : ImageBuild),
      m.baseOnly = false → m.forRelease = true → m.isPayload = true →
      basisQuery m.packageName = some bb →
      alookup m.packageName st.componentImageBuilds = some ref →
      ∃ st', collectOutlier custom basisQuery st m = .ok st' ∧
        ∀ q, q ∈ st'.forceIs ↔ q ∈ st.forceIs ∨ (q = m.packageName ∧ bb.nvr ≠ ref.nvr))
    ∧ (∀ (roster : List (String × String)) (rpmQuery : String → Nat → Option String)
        (isolateEl : String → Option Nat) (st : RpmState) (b : RpmBuild) (el : Nat)
        (basisNvr dgk : String),
      alookup b.packageName roster = some dgk →
      isolateEl b.release = some el →
      alookup el ((alookup b.packageName st.componentRpmBuilds).getD []) = none →
      rpmQuery b.packageName el = some basisNvr →
      ∃ st', selectRpmStep roster rpmQuery isolateEl st b = .ok st' ∧
        ∀ q, q ∈ st'.forceIs ↔ q ∈ st.forceIs ∨ (q = b.packageName ∧ basisNvr ≠ b.nvr)) := by
  constructor
  · intro custom basisQuery st m bb ref h1 h2 h3 hq href
    by_cases hnvr : bb.nvr = ref.nvr
    · refine ⟨st, by simp [collectOutlier, h1, h2, h3, hq, href, hnvr], fun q => ?_⟩
      simp [hnvr]
    · refine ⟨{ st with
          forceIs := insertSet m.packageName st.forceIs,
          log := st.log ++ [(.info, "image will be pinned")] },
        by simp [collectOutlier, h1, h2, h3, hq, href, hnvr], fun q => ?_⟩
      simp only [mem_insertSet, hnvr]
      constructor
      · rintro (hq' | rfl)
        · exact Or.inl hq'
        · exact Or.inr ⟨rfl, hnvr⟩
      · rintro (hq' | ⟨rfl, _⟩)
        · exact Or.inl hq'
        · exact Or.inr rfl
  · intro roster rpmQuery isolateEl st b el basisNvr dgk hr hel hnew hq
    refine ⟨_, selectRpmStep_retain hr hel hnew hq, fun q => ?_⟩
    by_cases hv : basisNvr = b.nvr
    · simp [hv]
    · simp only [if_pos hv, mem_insertSet, hv]
      constructor
      · rintro (hq' | rfl)
        · exact Or.inl hq'
        · exact Or.inr ⟨rfl, hv⟩
      · rintro (hq' | ⟨rfl, _⟩)
        · exact Or.inl hq'
        · exact Or.inr rfl

/-- Witness for C3: a concrete payload component whose basis-event query
returns nvr `n2` while the payloads observed `n1` is pinned, and the pin
set is exactly the package name. -/
theorem C3_pin_iff_nvr_differs_witness :
    ∃ st', collectOutlier false (fun _ => some ⟨"p", "n2", 5, "t", false, "d"⟩)
      ⟨[("p", ⟨"p", "n1", 100, "t", false, "d"⟩)], [], []⟩ ⟨"d", "p", false, true, true⟩ =
        .ok st' ∧
      ∀ q, q ∈ st'.forceIs ↔ q ∈ ([] : List String) ∨
        (q = "p" ∧ ("n2" : String) ≠ "n1") :=
  C3_pin_iff_nvr_differs.1 false (fun _ => some ⟨"p", "n2", 5, "t", false, "d"⟩)
    ⟨[("p", ⟨"p", "n1", 100, "t", false, "d"⟩)], [], []⟩ ⟨"d", "p", false, true, true⟩
    ⟨"p", "n2", 5, "t", false, "d"⟩ ⟨"p", "n1", 100, "t", false, "d"⟩
    rfl rfl rfl rfl rfl

/-- C5: absence of any build from the basis-event query is fatal: for an
eligible image component the whole image loop returns an error, and for a
first-time (package, el target) pair the whole rpm loop returns an error;
no assembly definition is produced from an error outcome. -/
theorem C5_absence_fatal :
    (∀ (custom : Bool) (basisQuery : String → Option ImageBuild) (st : OutState)
        (metas : List ImageMeta) (m : ImageMeta),
      m ∈ metas → m.baseOnly = false → m.forRelease = true →
      basisQuery m.packageName = none →
      ∃ e, collectOutliers custom basisQuery st metas = .error e)
    ∧ (∀ (roster : List (String × String)) (rpmQuery : String → Nat → Option String)
        (isolateEl : String → Option Nat) (st : RpmState) (builds : List RpmBuild)
        (b : RpmBuild) (el : Nat) (dgk : String),
      b ∈ builds → alookup b.packageName roster = some dgk →
      isolateEl b.release = some el →
      alookup el ((alookup b.packageName st.componentRpmBuilds).getD []) = none →
      rpmQuery b.packageName el = none →
      ∃ e, selectRpms roster rpmQuery isolateEl st builds = .error e) :=
  ⟨fun _ _ _ _ _ hm h1 h2 hq => collectOutliers_error_of_queryFail hm h1 h2 hq,
   fun _ _ _ _ _ _ _ _ hb hr hel habs hq => selectRpms_error_of_queryFail hb hr hel habs hq⟩

/-- Witness for C5: a concrete eligible component with an empty basis-event
query aborts the image loop, and a concrete first-time rpm pair with an
empty query aborts the rpm loop. -/
theorem C5_absence_fatal_witness :
    (∃ e, collectOutliers false (fun _ => none) ⟨[], [], []⟩
      [⟨"d", "p", false, true, true⟩] = .error e)
    ∧ ∃ e, selectRpms [("q", "qd")] (fun _ _ => none)
      (fun _ => some 8) ⟨[], []⟩ [⟨"q", "qn1", "1.el8"⟩] = .error e :=
  ⟨C5_absence_fatal.1 false (fun _ => none) ⟨[], [], []⟩ [⟨"d", "p", false, true, true⟩]
    ⟨"d", "p", false, true, true⟩ (List.mem_singleton.mpr rfl) rfl rfl rfl,
   C5_absence_fatal.2 [("q", "qd")] (fun _ _ => none) (fun _ => some 8) ⟨[], []⟩
    [⟨"q", "qn1", "1.el8"⟩] ⟨"q", "qn1", "1.el8"⟩ 8 "qd"
    (List.mem_singleton.mpr rfl) rfl rfl rfl rfl⟩

/-- C6: `component_rpm_builds` keeps at most one embedded build per
(package, el target) pair: a pair already captured makes the step a silent
no-op (no error, state unchanged), and a captured entry survives the rest
of the rpm loop unchanged (first observed wins). -/
theorem C6_rpm_dedup_first_wins :
    (∀ (roster : List (String × String)) (rpmQuery : String → Nat → Option String)
        (isolateEl : String → Option Nat) (st : RpmState) (b : RpmBuild) (el : Nat)
        (b0 : RpmBuild) (dgk : String),
      alookup b.packageName roster = some dgk →
      isolateEl b.release = some el →
      alookup el ((alookup b.packageName st.componentRpmBuilds).getD []) = some b0 →
      selectRpmStep roster rpmQuery isolateEl st b = .ok st)
    ∧ (∀ (roster : List (String × String)) (rpmQuery : String → Nat → Option String)
        (isolateEl : String → Option Nat) (builds : List RpmBuild) (st st' : RpmState)
        (pkg : String) (el : Nat) (b0 : RpmBuild),
      selectRpms roster rpmQuery isolateEl st builds = .ok st' →
      alookup el ((alookup pkg st.componentRpmBuilds).getD []) = some b0 →
      alookup el ((alookup pkg st'.componentRpmBuilds).getD []) = some b0) :=
  ⟨fun _ _ _ _ _ _ _ _ hr hel hdup => selectRpmStep_dup hr hel hdup,
   fun _ _ _ _ _ _ _ _ _ h hprev => selectRpms_preserves_entry h hprev⟩

/-- Witness for C6: feeding the same (package, el, build) twice retains
exactly the first entry, the duplicate step being a no-op. -/
theorem C6_rpm_dedup_first_wins_witness :
    selectRpmStep [("q", "qd")] (fun _ _ => some "qn1") (fun _ => some 8)
      ⟨[("q", [(8, ⟨"q", "qn1", "1.el8"⟩)])], []⟩ ⟨"q", "qn1", "1.el8"⟩ =
      .ok ⟨[("q", [(8, ⟨"q", "qn1", "1.el8"⟩)])], []⟩ :=
  C6_rpm_dedup_first_wins.1 [("q", "qd")] (fun _ _ => some "qn1") (fun _ => some 8)
    ⟨[("q", [(8, ⟨"q", "qn1", "1.el8"⟩)])], []⟩ ⟨"q", "qn1", "1.el8"⟩ 8
    ⟨"q", "qn1", "1.el8"⟩ "qd" rfl rfl rfl

/-- C8: an embedded rpm build of an ART package whose release string has no
parseable el version aborts the run (and no override list is produced,
since the rpm loop returns an error); an embedded build of a package
outside the caller-supplied roster is ignored entirely — for every parser
and query oracle the step returns the state unchanged. -/
theorem C8_el_parse_fatal_roster_ignored :
    (∀ (roster : List (String × String)) (rpmQuery : String → Nat → Option String)
        (isolateEl : String → Option Nat) (st : RpmState) (b : RpmBuild) (dgk : String),
      alookup b.packageName roster = some dgk →
      isolateEl b.release = none →
      selectRpmStep roster rpmQuery isolateEl st b = .error "Unable to isolate el version")
    ∧ (∀ (roster : List (String × String)) (rpmQuery : String → Nat → Option String)
        (isolateEl : String → Option Nat) (st : RpmState) (b : RpmBuild),
      alookup b.packageName roster = none →
      selectRpmStep roster rpmQuery isolateEl st b = .ok st)
    ∧ (∀ (roster : List (String × String)) (rpmQuery : String → Nat → Option String)
        (isolateEl : String → Option Nat) (st : RpmState) (builds : List RpmBuild)
        (b : RpmBuild) (dgk : String),
      b ∈ builds → alookup b.packageName roster = some dgk →
      isolateEl b.release = none →
      ∃ e, selectRpms roster rpmQuery isolateEl st builds = .error e) :=
  ⟨fun _ _ _ _ _ _ hr hel => selectRpmStep_parseFail hr hel,
   fun _ _ _ _ _ hr => selectRpmStep_nonRoster hr,
   fun _ _ _ _ _ _ _ hb hr hel => selectRpms_error_of_parseFail hb hr hel⟩

/-- Witness for C8: a concrete ART rpm build with no el version in its
release string is fatal, and a concrete third-party build is skipped. -/
theorem C8_el_parse_fatal_roster_ignored_witness :
    selectRpmStep [("q", "qd")] (fun _ _ => some "qn1") (fun _ => none) ⟨[], []⟩
      ⟨"q", "qn1", "noel"⟩ = .error "Unable to isolate el version" ∧
    selectRpmStep [("q", "qd")] (fun _ _ => some "qn1") (fun _ => none) ⟨[], []⟩
      ⟨"other", "on1", "noel"⟩ = .ok ⟨[], []⟩ :=
  ⟨C8_el_parse_fatal_roster_ignored.1 [("q", "qd")] (fun _ _ => some "qn1") (fun _ => none)
    ⟨[], []⟩ ⟨"q", "qn1", "noel"⟩ "qd" rfl rfl,
   C8_el_parse_fatal_roster_ignored.2.1 [("q", "qd")] (fun _ _ => some "qn1") (fun _ => none)
    ⟨[], []⟩ ⟨"other", "on1", "noel"⟩ rfl⟩

/-- C10: every pinned package name yields at most one override entry: the
override lists are computed name by name (the computation distributes over
concatenation of the pinned set), and a single name yields exactly one
image override carrying the observed image NVR when it has a recorded
image build, otherwise exactly one rpm override carrying one observed NVR
per el target when it has recorded rpm builds (a name with both recorded
kinds produces only the image override), and no entry at all otherwise. -/
theorem C10_override_per_pinned_name :
    (∀ (imgs : List (String × ImageBuild)) (rpms : List (String × List (Nat × RpmBuild)))
        (roster : List (String × String)) (l₁ l₂ : List String),
      getMemberOverrides imgs rpms roster (l₁ ++ l₂) =
        ((getMemberOverrides imgs rpms roster l₁).1 ++ (getMemberOverrides imgs rpms roster l₂).1,
         (getMemberOverrides imgs rpms roster l₁).2 ++ (getMemberOverrides imgs rpms roster l₂).2))
    ∧ (∀ (imgs : List (String × ImageBuild)) (rpms : List (String × List (Nat × RpmBuild)))
        (roster : List (String × String)) (pkg : String) (b : ImageBuild),
      alookup pkg imgs = some b →
      getMemberOverrides imgs rpms roster [pkg] = ([⟨b.distgitKey, b.nvr⟩], []))
    ∧ (∀ (imgs : List (String × ImageBuild)) (rpms : List (String × List (Nat × RpmBuild)))
        (roster : List (String × String)) (pkg : String) (inner : List (Nat × RpmBuild)),
      alookup pkg imgs = none → alookup pkg rpms = some inner →
      getMemberOverrides imgs rpms roster [pkg] =
        ([], [⟨(alookup pkg roster).getD "", inner.map (fun p => (p.1, p.2.nvr))⟩]))
    ∧ (∀ (imgs : List (String × ImageBuild)) (rpms : List (String × List (Nat × RpmBuild)))
        (roster : List (String × String)) (pkg : String),
      alookup pkg imgs = none → alookup pkg rpms = none →
      getMemberOverrides imgs rpms roster [pkg] = ([], [])) := by
  refine ⟨?_, ?_, ?_, ?_⟩
  · intro imgs rpms roster l₁
    induction l₁ with
    | nil => intro l₂; simp [getMemberOverrides]
    | cons pkg rest ih =>
      intro l₂
      have hcons : ∀ (l : List String),
          getMemberOverrides imgs rpms roster (pkg :: l) =
            (match alookup pkg imgs with
             | some b => (⟨b.distgitKey, b.nvr⟩ :: (getMemberOverrides imgs rpms roster l).1,
                 (getMemberOverrides imgs rpms roster l).2)
             | none =>
               match alookup pkg rpms with
               | some inner => ((getMemberOverrides imgs rpms roster l).1,
                   ⟨(alookup pkg roster).getD "", inner.map (fun p => (p.1, p.2.nvr))⟩ ::
                     (getMemberOverrides imgs rpms roster l).2)
               | none => getMemberOverrides imgs rpms roster l) := fun l => rfl
      show getMemberOverrides imgs rpms roster (pkg :: (rest ++ l₂)) = _
      rw [hcons, hcons, ih l₂]
      cases alookup pkg imgs with
      | some b => simp
      | none =>
        cases alookup pkg rpms with
        | some inner => simp
        | none => simp
  · intro imgs rpms roster pkg b hb
    simp [getMemberOverrides, hb]
  · intro imgs rpms roster pkg inner hb hr
    simp [getMemberOverrides, hb, hr]
  · intro imgs rpms roster pkg hb hr
    simp [getMemberOverrides, hb, hr]

/-- Witness for C10: a concrete pinned name recorded both as an image build
and as rpm builds yields only the image override with the observed NVR. -/
theorem C10_override_per_pinned_name_witness :
    getMemberOverrides [("p", ⟨"p", "n1", 100, "t", false, "d"⟩)]
      [("p", [(8, ⟨"p", "pn1", "1.el8"⟩)])] [("p", "pd")] ["p"] =
      ([⟨"d", "n1"⟩], []) :=
  C10_override_per_pinned_name.2.1 [("p", ⟨"p", "n1", 100, "t", false, "d"⟩)]
    [("p", [(8, ⟨"p", "pn1", "1.el8"⟩)])] [("p", "pd")] "p"
    ⟨"p", "n1", 100, "t", false, "d"⟩ rfl

/-- Characterization of one tag step when any previously recorded build for
the tag's package equals the tag's own resolved build (the conflict-free
regime): the step records the resolved build, bumps the basis instant by
its contribution, and routes rhcos tags to `rhcos_by_tag`. -/
theorem processTag_char {rn : List String} {resolve : String → ImageBuild} {arch : String}
    {st : ProcState} {t : RTag} {st₁ : ProcState}
    (hinv : t.name ∉ rn → ∀ b,
      alookup (resolve t.pullspec).packageName st.componentImageBuilds = some b →
      b = resolve t.pullspec)
    (h : processTag rn resolve arch st t = .ok st₁) :
    (∀ pkg, alookup pkg st₁.componentImageBuilds =
      if t.name ∉ rn ∧ (resolve t.pullspec).packageName = pkg
      then some (resolve t.pullspec) else alookup pkg st.componentImageBuilds)
    ∧ st₁.basisEventTs =
      (if t.name ∉ rn
       then max st.basisEventTs ((resolve t.pullspec).completionTs + 60 * 5)
       else st.basisEventTs)
    ∧ (∀ k, alookup k st₁.rhcosByTag =
      if t.name ∈ rn ∧ (t.name, arch) = k
      then some t.pullspec else alookup k st.rhcosByTag)
    ∧ st₁.rhcosVersion = st.rhcosVersion := by
  unfold processTag at h
  simp only [] at h
  by_cases hrn : t.name ∈ rn
  · rw [if_pos hrn] at h
    cases h
    refine ⟨?_, ?_, ?_, rfl⟩
    · intro pkg
      rw [if_neg (by intro hc; exact hc.1 hrn)]
    · rw [if_neg (by intro hc; exact hc hrn)]
    · intro k
      simp only [alookup_upsert]
      by_cases hk : (t.name, arch) = k
      · rw [if_pos hk, if_pos ⟨hrn, hk⟩]
      · rw [if_neg hk, if_neg (by intro hc; exact hk hc.2)]
  · rw [if_neg hrn] at h
    split at h
    · rename_i existing heq
      have hbe : existing = resolve t.pullspec := hinv hrn existing heq
      rw [hbe] at h
      rw [if_neg (fun hc => hc rfl)] at h
      cases h
      refine ⟨?_, ?_, ?_, rfl⟩
      · intro pkg
        by_cases hpkg : (resolve t.pullspec).packageName = pkg
        · rw [if_pos ⟨hrn, hpkg⟩, ← hpkg, heq, hbe]
        · rw [if_neg (by intro hc; exact hpkg hc.2)]
      · rw [if_pos hrn]
      · intro k
        rw [if_neg (by intro hc; exact hrn hc.1)]
    · rename_i heq
      cases h
      refine ⟨?_, ?_, ?_, rfl⟩
      · intro pkg
        simp only [alookup_upsert]
        by_cases hpkg : (resolve t.pullspec).packageName = pkg
        · rw [if_pos hpkg, if_pos ⟨hrn, hpkg⟩]
        · rw [if_neg hpkg, if_neg (by intro hc; exact hpkg hc.2)]
      · rw [if_pos hrn]
      · intro k
        rw [if_neg (by intro hc; exact hrn hc.1)]

/-- Characterization of the whole tag loop in the conflict-free regime:
every eligible tag's resolved build ends up recorded, untouched packages
keep their prior entry, the basis instant is the fold of all eligible
contributions, and rhcos tags end up in `rhcos_by_tag`. -/
theorem processTags_char {rn : List String} {resolve : String → ImageBuild} {arch : String} :
    ∀ {L : List RTag} {st st' : ProcState},
      (∀ t ∈ L, t.name ∉ rn → ∀ b,
        alookup (resolve t.pullspec).packageName st.componentImageBuilds = some b →
        b = resolve t.pullspec) →
      (∀ t ∈ L, ∀ t' ∈ L, t.name ∉ rn → t'.name ∉ rn →
        (resolve t.pullspec).packageName = (resolve t'.pullspec).packageName →
        resolve t.pullspec = resolve t'.pullspec) →
      (∀ t ∈ L, ∀ t' ∈ L, t.name ∈ rn → t'.name ∈ rn → t.name = t'.name →
        t.pullspec = t'.pullspec) →
      processTags rn resolve arch st L = .ok st' →
      (∀ t ∈ L, t.name ∉ rn →
        alookup (resolve t.pullspec).packageName st'.componentImageBuilds =
          some (resolve t.pullspec))
      ∧ (∀ pkg, (∀ t ∈ L, t.name ∉ rn → (resolve t.pullspec).packageName ≠ pkg) →
        alookup pkg st'.componentImageBuilds = alookup pkg st.componentImageBuilds)
      ∧ st'.basisEventTs = List.foldl
          (fun a t => if t.name ∉ rn
            then max a ((resolve t.pullspec).completionTs + 60 * 5) else a)
          st.basisEventTs L
      ∧ (∀ t ∈ L, t.name ∈ rn → alookup (t.name, arch) st'.rhcosByTag = some t.pullspec)
      ∧ (∀ k, (∀ t ∈ L, ¬(t.name ∈ rn ∧ (t.name, arch) = k)) →
        alookup k st'.rhcosByTag = alookup k st.rhcosByTag)
      ∧ st'.rhcosVersion = st.rhcosVersion := by
  intro L
  induction L with
  | nil =>
    intro st st' _ _ _ h
    cases h
    exact ⟨fun t ht => absurd ht (List.not_mem_nil _),
      fun pkg _ => rfl, rfl,
      fun t ht => absurd ht (List.not_mem_nil _),
      fun k _ => rfl, rfl⟩
  | cons t₀ L' ih =>
    intro st st' hinv hfun hrh h
    unfold processTags at h
    split at h
    case h_2 => cases h
    case h_1 st₁ hstep =>
      obtain ⟨hmap₁, hts₁, hrh₁, hver₁⟩ :=
        processTag_char (hinv t₀ (List.mem_cons_self _ _)) hstep
      have hinv' : ∀ t ∈ L', t.name ∉ rn → ∀ b,
          alookup (resolve t.pullspec).packageName st₁.componentImageBuilds = some b →
          b = resolve t.pullspec := by
        intro t ht hne b hb
        rw [hmap₁] at hb
        by_cases hcase : t₀.name ∉ rn ∧
            (resolve t₀.pullspec).packageName = (resolve t.pullspec).packageName
        · rw [if_pos hcase] at hb
          cases hb
          exact hfun t₀ (List.mem_cons_self _ _) t (List.mem_cons_of_mem _ ht)
            hcase.1 hne hcase.2
        · rw [if_neg hcase] at hb
          exact hinv t (List.mem_cons_of_mem _ ht) hne b hb
      have hfun' : ∀ t ∈ L', ∀ t' ∈ L', t.name ∉ rn → t'.name ∉ rn →
          (resolve t.pullspec).packageName = (resolve t'.pullspec).packageName →
          resolve t.pullspec = resolve t'.pullspec :=
        fun t ht t' ht' => hfun t (List.mem_cons_of_mem _ ht) t' (List.mem_cons_of_mem _ ht')
      have hrh' : ∀ t ∈ L', ∀ t' ∈ L', t.name ∈ rn → t'.name ∈ rn → t.name = t'.name →
          t.pullspec = t'.pullspec :=
        fun t ht t' ht' => hrh t (List.mem_cons_of_mem _ ht) t' (List.mem_cons_of_mem _ ht')
      obtain ⟨ihp, iha, ihts, ihrp, ihra, ihv⟩ := ih hinv' hfun' hrh' h
      refine ⟨?_, ?_, ?_, ?_, ?_, ihv.trans hver₁⟩
      · intro t ht hne
        rcases List.mem_cons.mp ht with rfl | ht'
        · by_cases hex : ∃ t' ∈ L', t'.name ∉ rn ∧
              (resolve t'.pullspec).packageName = (resolve t.pullspec).packageName
          · obtain ⟨t', ht', hne', hpk'⟩ := hex
            have hval : resolve t'.pullspec = resolve t.pullspec :=
              hfun t' (List.mem_cons_of_mem _ ht') t (List.mem_cons_self _ _) hne' hne hpk'
            have := ihp t' ht' hne'
            rw [hpk', hval] at this
            exact this
          · push_neg at hex
            have habs : ∀ t' ∈ L', t'.name ∉ rn →
                (resolve t'.pullspec).packageName ≠ (resolve t.pullspec).packageName :=
              fun t' ht' hne' => hex t' ht' hne'
            rw [iha _ habs, hmap₁, if_pos ⟨hne, rfl⟩]
        · exact ihp t ht' hne
      · intro pkg hno
        rw [iha pkg (fun t ht => hno t (List.mem_cons_of_mem _ ht)), hmap₁,
          if_neg (fun hc => hno t₀ (List.mem_cons_self _ _) hc.1 hc.2)]
      · rw [ihts, List.foldl_cons, hts₁]
      · intro t ht hrnt
        rcases List.mem_cons.mp ht with rfl | ht'
        · by_cases hex : ∃ t' ∈ L', t'.name ∈ rn ∧ (t'.name, arch) = ((t.name, arch) : String × String)
          · obtain ⟨t', ht', hrn', hk'⟩ := hex
            have hname : t'.name = t.name := (Prod.mk.injEq _ _ _ _ ▸ hk').1
            have hval : t.pullspec = t'.pullspec :=
              hrh t (List.mem_cons_self _ _) t' (List.mem_cons_of_mem _ ht') hrnt hrn' hname.symm
            have := ihrp t' ht' hrn'
            rw [hk'] at this
            rw [this, hval]
          · push_neg at hex
            rw [ihra _ (fun t' ht' hc => hex t' ht' hc.1 hc.2), hrh₁,
              if_pos ⟨hrnt, rfl⟩]
        · exact ihrp t ht' hrnt
      · intro k hno
        rw [ihra k (fun t ht => hno t (List.mem_cons_of_mem _ ht)), hrh₁,
          if_neg (hno t₀ (List.mem_cons_self _ _))]

/-- `processRelease` in the conflict-free regime: as `processTags_char`,
plus the machine-os version is taken from the release. -/
theorem processRelease_char {rn : List String} {resolve : String → ImageBuild}
    {st st' : ProcState} {r : Release}
    (hinv : ∀ t ∈ r.tags, t.name ∉ rn → ∀ b,
      alookup (resolve t.pullspec).packageName st.componentImageBuilds = some b →
      b = resolve t.pullspec)
    (hfun : ∀ t ∈ r.tags, ∀ t' ∈ r.tags, t.name ∉ rn → t'.name ∉ rn →
      (resolve t.pullspec).packageName = (resolve t'.pullspec).packageName →
      resolve t.pullspec = resolve t'.pullspec)
    (hrh : ∀ t ∈ r.tags, ∀ t' ∈ r.tags, t.name ∈ rn → t'.name ∈ rn → t.name = t'.name →
      t.pullspec = t'.pullspec)
    (h : processRelease rn resolve st r = .ok st') :
    (∀ t ∈ r.tags, t.name ∉ rn →
      alookup (resolve t.pullspec).packageName st'.componentImageBuilds =
        some (resolve t.pullspec))
    ∧ (∀ pkg, (∀ t ∈ r.tags, t.name ∉ rn → (resolve t.pullspec).packageName ≠ pkg) →
      alookup pkg st'.componentImageBuilds = alookup pkg st.componentImageBuilds)
    ∧ st'.basisEventTs = List.foldl
        (fun a t => if t.name ∉ rn
          then max a ((resolve t.pullspec).completionTs + 60 * 5) else a)
        st.basisEventTs r.tags
    ∧ (∀ t ∈ r.tags, t.name ∈ rn → alookup (t.name, r.arch) st'.rhcosByTag = some t.pullspec)
    ∧ (∀ k, (∀ t ∈ r.tags, ¬(t.name ∈ rn ∧ (t.name, r.arch) = k)) →
      alookup k st'.rhcosByTag = alookup k st.rhcosByTag)
    ∧ st'.rhcosVersion = r.rhcosVersion := by
  unfold processRelease at h
  split at h
  · cases h
  · split at h
    · cases h
    · obtain ⟨hp, ha, hts, hrp, hra, hv⟩ :=
        @processTags_char rn resolve r.arch r.tags
          ⟨st.componentImageBuilds, st.basisEventTs, st.rhcosByTag, r.rhcosVersion⟩ st'
          hinv hfun hrh h
      exact ⟨hp, ha, hts, hrp, hra, hv⟩

/-- `processReleases` in the conflict-free regime: every eligible tag's
resolved build is recorded, untouched packages keep their prior entries,
the basis instant is the fold of all eligible contributions over all
payloads, rhcos tags are recorded per (name, arch), and the machine-os
version is the common one when all payloads agree. -/
theorem processReleases_char {rn : List String} {resolve : String → ImageBuild} :
    ∀ {rs : List Release} {st st' : ProcState},
      (∀ r ∈ rs, ∀ t ∈ r.tags, t.name ∉ rn → ∀ b,
        alookup (resolve t.pullspec).packageName st.componentImageBuilds = some b →
        b = resolve t.pullspec) →
      (∀ r ∈ rs, ∀ r' ∈ rs, ∀ t ∈ r.tags, ∀ t' ∈ r'.tags, t.name ∉ rn → t'.name ∉ rn →
        (resolve t.pullspec).packageName = (resolve t'.pullspec).packageName →
        resolve t.pullspec = resolve t'.pullspec) →
      (∀ r ∈ rs, ∀ r' ∈ rs, ∀ t ∈ r.tags, ∀ t' ∈ r'.tags, t.name ∈ rn → t'.name ∈ rn →
        t.name = t'.name → r.arch = r'.arch → t.pullspec = t'.pullspec) →
      processReleases rn resolve st rs = .ok st' →
      (∀ r ∈ rs, ∀ t ∈ r.tags, t.name ∉ rn →
        alookup (resolve t.pullspec).packageName st'.componentImageBuilds =
          some (resolve t.pullspec))
      ∧ (∀ pkg, (∀ r ∈ rs, ∀ t ∈ r.tags, t.name ∉ rn →
          (resolve t.pullspec).packageName ≠ pkg) →
        alookup pkg st'.componentImageBuilds = alookup pkg st.componentImageBuilds)
      ∧ st'.basisEventTs = List.foldl
          (fun a t => if t.name ∉ rn
            then max a ((resolve t.pullspec).completionTs + 60 * 5) else a)
          st.basisEventTs (rs.flatMap Release.tags)
      ∧ (∀ r ∈ rs, ∀ t ∈ r.tags, t.name ∈ rn →
        alookup (t.name, r.arch) st'.rhcosByTag = some t.pullspec)
      ∧ (∀ k, (∀ r ∈ rs, ∀ t ∈ r.tags, ¬(t.name ∈ rn ∧ (t.name, r.arch) = k)) →
        alookup k st'.rhcosByTag = alookup k st.rhcosByTag)
      ∧ (rs = [] → st'.rhcosVersion = st.rhcosVersion)
      ∧ (∀ v, (∀ r ∈ rs, r.rhcosVersion = v) → rs ≠ [] → st'.rhcosVersion = v) := by
  intro rs
  induction rs with
  | nil =>
    intro st st' _ _ _ h
    cases h
    exact ⟨fun r hr => absurd hr (List.not_mem_nil _),
      fun pkg _ => rfl, rfl,
      fun r hr => absurd hr (List.not_mem_nil _),
      fun k _ => rfl, fun _ => rfl, fun v _ hc => absurd rfl hc⟩
  | cons r₀ rs' ih =>
    intro st st' hinv hfun hrh h
    unfold processReleases at h
    split at h
    case h_2 => cases h
    case h_1 st₁ hstep =>
      obtain ⟨p₁, a₁, ts₁, rp₁, ra₁, v₁⟩ := processRelease_char
        (hinv r₀ (List.mem_cons_self _ _))
        (fun t ht t' ht' => hfun r₀ (List.mem_cons_self _ _) r₀ (List.mem_cons_self _ _) t ht t' ht')
        (fun t ht t' ht' hn hn' hname =>
          hrh r₀ (List.mem_cons_self _ _) r₀ (List.mem_cons_self _ _) t ht t' ht' hn hn' hname rfl)
        hstep
      have hinv' : ∀ r ∈ rs', ∀ t ∈ r.tags, t.name ∉ rn → ∀ b,
          alookup (resolve t.pullspec).packageName st₁.componentImageBuilds = some b →
          b = resolve t.pullspec := by
        intro r hr t ht hne b hb
        by_cases hex : ∃ t₀ ∈ r₀.tags, t₀.name ∉ rn ∧
            (resolve t₀.pullspec).packageName = (resolve t.pullspec).packageName
        · obtain ⟨t₀, ht₀, hne₀, hpk₀⟩ := hex
          have hl := p₁ t₀ ht₀ hne₀
          rw [hpk₀] at hl
          rw [hl] at hb
          cases hb
          exact hfun r₀ (List.mem_cons_self _ _) r (List.mem_cons_of_mem _ hr)
            t₀ ht₀ t ht hne₀ hne hpk₀
        · push_neg at hex
          rw [a₁ _ (fun t₀ ht₀ hne₀ => hex t₀ ht₀ hne₀)] at hb
          exact hinv r (List.mem_cons_of_mem _ hr) t ht hne b hb
      have hfun' : ∀ r ∈ rs', ∀ r' ∈ rs', ∀ t ∈ r.tags, ∀ t' ∈ r'.tags,
          t.name ∉ rn → t'.name ∉ rn →
          (resolve t.pullspec).packageName = (resolve t'.pullspec).packageName →
          resolve t.pullspec = resolve t'.pullspec :=
        fun r hr r' hr' => hfun r (List.mem_cons_of_mem _ hr) r' (List.mem_cons_of_mem _ hr')
      have hrh' : ∀ r ∈ rs', ∀ r' ∈ rs', ∀ t ∈ r.tags, ∀ t' ∈ r'.tags,
          t.name ∈ rn → t'.name ∈ rn → t.name = t'.name → r.arch = r'.arch →
          t.pullspec = t'.pullspec :=
        fun r hr r' hr' => hrh r (List.mem_cons_of_mem _ hr) r' (List.mem_cons_of_mem _ hr')
      obtain ⟨ihp, iha, ihts, ihrp, ihra, ihv0, ihv⟩ := ih hinv' hfun' hrh' h
      refine ⟨?_, ?_, ?_, ?_, ?_, ?_, ?_⟩
      · intro r hr t ht hne
        rcases List.mem_cons.mp hr with rfl | hr'
        · by_cases hex : ∃ r' ∈ rs', ∃ t' ∈ r'.tags, t'.name ∉ rn ∧
              (resolve t'.pullspec).packageName = (resolve t.pullspec).packageName
          · obtain ⟨r', hr', t', ht', hne', hpk'⟩ := hex
            have hval : resolve t'.pullspec = resolve t.pullspec :=
              hfun r' (List.mem_cons_of_mem _ hr') r (List.mem_cons_self _ _)
                t' ht' t ht hne' hne hpk'
            have hl := ihp r' hr' t' ht' hne'
            rw [hpk', hval] at hl
            exact hl
          · push_neg at hex
            rw [iha _ (fun r' hr' t' ht' hne' => hex r' hr' t' ht' hne')]
            exact p₁ t ht hne
        · exact ihp r hr' t ht hne
      · intro pkg hno
        rw [iha pkg (fun r hr => hno r (List.mem_cons_of_mem _ hr)),
          a₁ pkg (hno r₀ (List.mem_cons_self _ _))]
      · rw [ihts, ts₁, List.flatMap_cons, List.foldl_append]
      · intro r hr t ht hrnt
        rcases List.mem_cons.mp hr with rfl | hr'
        · by_cases hex : ∃ r' ∈ rs', ∃ t' ∈ r'.tags, t'.name ∈ rn ∧
              ((t'.name, r'.arch) : String × String) = (t.name, r.arch)
          · obtain ⟨r', hr', t', ht', hrn', hk'⟩ := hex
            have hname : t'.name = t.name := (Prod.mk.injEq _ _ _ _ ▸ hk').1
            have harch : r'.arch = r.arch := (Prod.mk.injEq _ _ _ _ ▸ hk').2
            have hval : t'.pullspec = t.pullspec :=
              hrh r' (List.mem_cons_of_mem _ hr') r (List.mem_cons_self _ _)
                t' ht' t ht hrn' hrnt hname harch
            have hl := ihrp r' hr' t' ht' hrn'
            rw [hk', hval] at hl
            exact hl
          · push_neg at hex
            rw [ihra _ (fun r' hr' t' ht' hc => hex r' hr' t' ht' hc.1 hc.2)]
            exact rp₁ t ht hrnt
        · exact ihrp r hr' t ht hrnt
      · intro k hno
        rw [ihra k (fun r hr => hno r (List.mem_cons_of_mem _ hr)),
          ra₁ k (hno r₀ (List.mem_cons_self _ _))]
      · intro hc
        cases hc
      · intro v hv _
        rcases heq : rs' with _ | ⟨r₁, rs''⟩
        · subst heq
          rw [ihv0 rfl, v₁]
          exact hv r₀ (List.mem_cons_self _ _)
        · exact ihv v (fun r hr => hv r (List.mem_cons_of_mem _ hr))
            (by rw [heq]; exact List.cons_ne_nil _ _)

/-- C4 (amended): two successful runs over identical stable upstream data
produce extensionally identical payload-processing state — component build
map, basis event instant (hence basis event id), rhcos image map, and
machine-os version — regardless of the completion order of the concurrent
per-architecture payload fetches, PROVIDED every package resolves to the
same build across all processed payloads and rhcos tags are consistent per
(name, arch).  (Without that proviso the claim is false: see the
counterexample, where the explicit-payload-name tie-break makes the
selected build, and hence the override lists, depend on completion
order.) -/
theorem C4_order_independence {rn : List String} {resolve : String → ImageBuild}
    {rs₁ rs₂ : List Release} {st₁ st₂ : ProcState}
    (hperm : rs₁.Perm rs₂)
    (hfun : ∀ r ∈ rs₁, ∀ r' ∈ rs₁, ∀ t ∈ r.tags, ∀ t' ∈ r'.tags,
      t.name ∉ rn → t'.name ∉ rn →
      (resolve t.pullspec).packageName = (resolve t'.pullspec).packageName →
      resolve t.pullspec = resolve t'.pullspec)
    (hrh : ∀ r ∈ rs₁, ∀ r' ∈ rs₁, ∀ t ∈ r.tags, ∀ t' ∈ r'.tags,
      t.name ∈ rn → t'.name ∈ rn → t.name = t'.name → r.arch = r'.arch →
      t.pullspec = t'.pullspec)
    (hver : ∀ r ∈ rs₁, ∀ r' ∈ rs₁, r.rhcosVersion = r'.rhcosVersion)
    (h₁ : processReleases rn resolve initProcState rs₁ = .ok st₁)
    (h₂ : processReleases rn resolve initProcState rs₂ = .ok st₂) :
    (∀ pkg, alookup pkg st₁.componentImageBuilds = alookup pkg st₂.componentImageBuilds)
    ∧ st₁.basisEventTs = st₂.basisEventTs
    ∧ (∀ events, getLastEvent events st₁.basisEventTs = getLastEvent events st₂.basisEventTs)
    ∧ (∀ k, alookup k st₁.rhcosByTag = alookup k st₂.rhcosByTag)
    ∧ st₁.rhcosVersion = st₂.rhcosVersion := by
  have hmem : ∀ r, r ∈ rs₂ → r ∈ rs₁ := fun r hr => hperm.mem_iff.mpr hr
  have hfun₂ : ∀ r ∈ rs₂, ∀ r' ∈ rs₂, ∀ t ∈ r.tags, ∀ t' ∈ r'.tags,
      t.name ∉ rn → t'.name ∉ rn →
      (resolve t.pullspec).packageName = (resolve t'.pullspec).packageName →
      resolve t.pullspec = resolve t'.pullspec :=
    fun r hr r' hr' => hfun r (hmem r hr) r' (hmem r' hr')
  have hrh₂ : ∀ r ∈ rs₂, ∀ r' ∈ rs₂, ∀ t ∈ r.tags, ∀ t' ∈ r'.tags,
      t.name ∈ rn → t'.name ∈ rn → t.name = t'.name → r.arch = r'.arch →
      t.pullspec = t'.pullspec :=
    fun r hr r' hr' => hrh r (hmem r hr) r' (hmem r' hr')
  have hinv₁ : ∀ r ∈ rs₁, ∀ t ∈ r.tags, t.name ∉ rn → ∀ b,
      alookup (resolve t.pullspec).packageName initProcState.componentImageBuilds = some b →
      b = resolve t.pullspec := by
    intro r _ t _ _ b hb
    simp [initProcState, alookup] at hb
  have hinv₂ : ∀ r ∈ rs₂, ∀ t ∈ r.tags, t.name ∉ rn → ∀ b,
      alookup (resolve t.pullspec).packageName initProcState.componentImageBuilds = some b →
      b = resolve t.pullspec := by
    intro r _ t _ _ b hb
    simp [initProcState, alookup] at hb
  obtain ⟨p₁, a₁, ts₁, rp₁, ra₁, v₁0, v₁⟩ := processReleases_char hinv₁ hfun hrh h₁
  obtain ⟨p₂, a₂, ts₂, rp₂, ra₂, v₂0, v₂⟩ := processReleases_char hinv₂ hfun₂ hrh₂ h₂
  have hts : st₁.basisEventTs = st₂.basisEventTs := by
    rw [ts₁, ts₂]
    refine (hperm.flatMap_right Release.tags).foldl_eq' ?_ _
    intro x _ y _ a
    by_cases hx : x.name ∉ rn <;> by_cases hy : y.name ∉ rn <;>
      simp [hx, hy, sup_right_comm]
  refine ⟨?_, hts, fun events => by rw [hts], ?_, ?_⟩
  · intro pkg
    by_cases hex : ∃ r ∈ rs₁, ∃ t ∈ r.tags, t.name ∉ rn ∧
        (resolve t.pullspec).packageName = pkg
    · obtain ⟨r, hr, t, ht, hne, hpk⟩ := hex
      have hl₁ := p₁ r hr t ht hne
      have hl₂ := p₂ r (hperm.mem_iff.mp hr) t ht hne
      rw [hpk] at hl₁ hl₂
      rw [hl₁, hl₂]
    · push_neg at hex
      rw [a₁ pkg (fun r hr t ht hne => hex r hr t ht hne),
        a₂ pkg (fun r hr t ht hne => hex r (hmem r hr) t ht hne)]
  · intro k
    by_cases hex : ∃ r ∈ rs₁, ∃ t ∈ r.tags, t.name ∈ rn ∧
        ((t.name, r.arch) : String × String) = k
    · obtain ⟨r, hr, t, ht, hrn, hk⟩ := hex
      have hl₁ := rp₁ r hr t ht hrn
      have hl₂ := rp₂ r (hperm.mem_iff.mp hr) t ht hrn
      rw [hk] at hl₁ hl₂
      rw [hl₁, hl₂]
    · push_neg at hex
      rw [ra₁ k (fun r hr t ht hc => hex r hr t ht hc.1 hc.2),
        ra₂ k (fun r hr t ht hc => hex r (hmem r hr) t ht hc.1 hc.2)]
  · cases hrs : rs₁ with
    | nil =>
      have hrs₂ : rs₂ = [] := by
        have := hperm
        rw [hrs] at this
        exact this.symm.eq_nil
      rw [v₁0 hrs, v₂0 hrs₂]
    | cons r₀ rs₀ =>
      have hr₀ : r₀ ∈ rs₁ := by rw [hrs]; exact List.mem_cons_self _ _
      have hv₁ := v₁ r₀.rhcosVersion (fun r hr => hver r hr r₀ hr₀)
        (by rw [hrs]; exact List.cons_ne_nil _ _)
      have hrs₂ : rs₂ ≠ [] := by
        intro hc
        rw [hc] at hperm
        rw [hperm.eq_nil] at hrs
        cases hrs
      have hv₂ := v₂ r₀.rhcosVersion
        (fun r hr => hver r (hmem r hr) r₀ hr₀) hrs₂
      rw [hv₁, hv₂]

/-- Counterexample for C4 as stated: over identical upstream data — the
same two payloads, build records and event lookups — the two possible
completion orders of the per-architecture fetches produce different
assembly definitions.  Each payload carries the same tag name `tag`
resolving the same package `p` to different NVRs with an explicitly
declared payload name `tag`, so the last-explicit-match tie-break selects
whichever payload happened to be processed last, and the resulting image
override lists differ. -/
theorem C4_order_dependence_counterexample :
    genAssemblyCore []
      (fun s => if s = "A" then ⟨"p", "n1", 100, "tag", true, "d"⟩
        else ⟨"p", "n2", 50, "tag", true, "d"⟩)
      [(7, 100)] false (fun _ _ => some ⟨"p", "n0", 10, "tag", true, "d"⟩)
      [⟨"d", "p", false, true, true⟩] [] (fun _ _ _ => none) (fun _ => none) (fun _ => [])
      [⟨"x86", "v", [⟨"tag", "A"⟩]⟩, ⟨"s390x", "v", [⟨"tag", "B"⟩]⟩] =
      .ok (7, [], [⟨"d", "n2"⟩], []) ∧
    genAssemblyCore []
      (fun s => if s = "A" then ⟨"p", "n1", 100, "tag", true, "d"⟩
        else ⟨"p", "n2", 50, "tag", true, "d"⟩)
      [(7, 100)] false (fun _ _ => some ⟨"p", "n0", 10, "tag", true, "d"⟩)
      [⟨"d", "p", false, true, true⟩] [] (fun _ _ _ => none) (fun _ => none) (fun _ => [])
      [⟨"s390x", "v", [⟨"tag", "B"⟩]⟩, ⟨"x86", "v", [⟨"tag", "A"⟩]⟩] =
      .ok (7, [], [⟨"d", "n1"⟩], []) ∧
    ([(⟨"d", "n2"⟩ : ImageOverride)] : List ImageOverride) ≠ [⟨"d", "n1"⟩] := by
  refine ⟨by decide, by decide, by decide⟩

/-- Witness for the amended C4: a concrete conflict-free pair of payloads
processed in both orders yields the same basis event instant. -/
theorem C4_order_independence_witness : (400 : ℤ) = 400 :=
  (@C4_order_independence []
    (fun _ => ⟨"p", "n", 100, "t", false, "d"⟩)
    [⟨"a1", "v", [⟨"t", "x"⟩]⟩, ⟨"a2", "v", [⟨"t", "y"⟩]⟩]
    [⟨"a2", "v", [⟨"t", "y"⟩]⟩, ⟨"a1", "v", [⟨"t", "x"⟩]⟩]
    ⟨[("p", ⟨"p", "n", 100, "t", false, "d"⟩)], 400, [], "v"⟩
    ⟨[("p", ⟨"p", "n", 100, "t", false, "d"⟩)], 400, [], "v"⟩
    (List.Perm.swap _ _ _) (by decide) (by decide) (by decide)
    (by decide) (by decide)).2.1
